import Mathlib

/-!
# The photo indexer (internal/photoprism/indexer.go)

A shallow embedding of `Indexer.appendTag`, `Indexer.getImageTags`,
`Indexer.indexMediaFile`, `Indexer.IndexRelated` and `Indexer.IndexAll`.

* Go strings are Lean strings (valid UTF-8 only); `len` is the UTF-8 byte size.
* The catalog (gorm) is a record of tables; a table is the list of its rows in
  primary-key order, so `First` is the first row that satisfies the condition.
* An instant is a number of nanoseconds; one call of `indexMediaFile` takes
  place at one instant, read from the indexer's clock.
* Floating-point values are never computed on here; they are carried as bit
  patterns (`Float64`).
-/

namespace Photoprism

/-! ## Go standard library -/

/-- Case and class tables of Go's `unicode` package for the runes above U+007F. -/
structure Unicode where
  toLower : Char → Char
  toTitle : Char → Char
  isLetter : Char → Bool
  isDigit : Char → Bool
  isSpace : Char → Bool

/-- Tables that leave every rune above U+007F alone (used for evaluation on ASCII text). -/
def Unicode.ascii : Unicode :=
  ⟨fun c => c, fun c => c, fun _ => false, fun _ => false, fun _ => false⟩

/-- Go `unicode.ToLower`. -/
def runeToLower (u : Unicode) (r : Char) : Char :=
  if r.toNat ≤ 0x7F then
    if 0x41 ≤ r.toNat ∧ r.toNat ≤ 0x5A then Char.ofNat (r.toNat + 0x20) else r
  else u.toLower r

/-- Go `unicode.ToTitle`. -/
def runeToTitle (u : Unicode) (r : Char) : Char :=
  if r.toNat ≤ 0x7F then
    if 0x61 ≤ r.toNat ∧ r.toNat ≤ 0x7A then Char.ofNat (r.toNat - 0x20) else r
  else u.toTitle r

/-- Go `strings.isSeparator`. -/
def isSeparator (u : Unicode) (r : Char) : Bool :=
  if r.toNat ≤ 0x7F then
    if 0x30 ≤ r.toNat ∧ r.toNat ≤ 0x39 then false
    else if 0x61 ≤ r.toNat ∧ r.toNat ≤ 0x7A then false
    else if 0x41 ≤ r.toNat ∧ r.toNat ≤ 0x5A then false
    else if r.toNat = 0x5F then false
    else true
  else if u.isLetter r || u.isDigit r then false
  else u.isSpace r

/-- Go `strings.ToLower`: every rune is mapped by `unicode.ToLower`. -/
def toLower (u : Unicode) (s : String) : String :=
  String.mk (s.data.map (runeToLower u))

/-- The rune loop of Go `strings.Title`: `prev` is the rune seen before. -/
def titleRunes (u : Unicode) : Char → List Char → List Char
  | _, [] => []
  | prev, r :: rs =>
    (if isSeparator u prev then runeToTitle u r else r) :: titleRunes u r rs

/-- Go `strings.Title`: the first letter of every word is mapped to title case. -/
def title (u : Unicode) (s : String) : String :=
  String.mk (titleRunes u ' ' s.data)

/-- Go `len(s)`: the number of bytes of the UTF-8 encoding. -/
def len (s : String) : Nat := s.utf8ByteSize

/-- Removal of the trailing slashes, on the reversed path. -/
def dropSlashes : List Char → List Char
  | [] => []
  | c :: cs => if c = '/' then dropSlashes cs else c :: cs

/-- Go `filepath.Base` (Unix): the last element of the path. -/
def base (path : String) : String :=
  if path = "" then "."
  else
    let r := dropSlashes path.data.reverse
    let e := (r.takeWhile (fun c => decide (c ≠ '/'))).reverse
    if e = [] then "/" else String.mk e

/-- Condition `strings.HasPrefix(s, ".")`. -/
def startsWithDot (s : String) : Bool :=
  match s.data with
  | c :: _ => decide (c = '.')
  | [] => false

/-- Decimal digits of `n`, least significant first, `fuel` bounding the count. -/
def digitsRev : Nat → Nat → List Char
  | 0, _ => []
  | fuel + 1, n =>
    Char.ofNat (0x30 + n % 10) :: (if n / 10 = 0 then [] else digitsRev fuel (n / 10))

/-- Go `time.appendInt(b, x, 4)`: sign, then the decimal digits padded with zeros to width 4. -/
def appendInt4 (x : Int) : String :=
  let ds := (digitsRev (x.natAbs + 1) x.natAbs).reverse
  let padded := List.replicate (4 - ds.length) '0' ++ ds
  String.mk (if x < 0 then '-' :: padded else padded)

/-- A `time.Time` value: the instant, and the calendar year and day number of its date. -/
structure Time where
  nanos : Int
  year : Int
  day : Int
  deriving DecidableEq, Repr

/-- Go `t.Format("2006")`. -/
def Time.format2006 (t : Time) : String := appendInt4 t.year

/-- A `float64` or `float32`, as its bit pattern. -/
abbrev Float64 := Nat

/-- Ten minutes in nanoseconds: `d.Minutes() > 10` holds exactly when `d` exceeds it. -/
def tenMinutes : Int := 600000000000

/-! ## Records (package models) -/

/-- Row of the tags table. -/
structure Tag where
  ID : Nat
  TagLabel : String
  deriving DecidableEq, Repr

/-- Row of the countries table, keyed by the country code. -/
structure Country where
  ID : String
  CountryName : String
  deriving DecidableEq, Repr

/-- Row of the locations table, keyed by the geocoder's id. -/
structure Location where
  ID : Nat
  LocName : String
  LocCity : String
  LocCounty : String
  LocCountry : String
  LocCountryCode : String
  LocCategory : String
  LocType : String
  deriving DecidableEq, Repr

/-- Row of the cameras table. -/
structure Camera where
  ID : Nat
  CameraModel : String
  CameraMake : String
  deriving DecidableEq, Repr

/-- Row of the lenses table. -/
structure Lens where
  ID : Nat
  LensModel : String
  LensMake : String
  deriving DecidableEq, Repr

/-- Columns of a Photo. The associations `Country`, `Location`, `Camera` and `Lens` of the
Go struct are held by their foreign keys (`""` and `0` for none); the tags are rows of the
join table `DB.photoTags`. -/
structure Photo where
  ID : Nat
  CreatedAt : Int
  UpdatedAt : Int
  TakenAt : Time
  PhotoCanonicalName : String
  PhotoTitle : String
  PhotoLat : Float64
  PhotoLong : Float64
  PhotoArtist : String
  PhotoFocalLength : Float64
  PhotoAperture : Float64
  PhotoFavorite : Bool
  CameraID : Nat
  LensID : Nat
  CountryID : String
  LocationID : Nat
  deriving DecidableEq, Repr

/-- Columns of a File. -/
structure File where
  ID : Nat
  CreatedAt : Int
  UpdatedAt : Int
  PhotoID : Nat
  FilePrimary : Bool
  FileMissing : Bool
  FileName : String
  FileHash : String
  FileType : String
  FileMime : String
  FileOrientation : Int
  FileMainColor : String
  FileColors : String
  FileLuminance : String
  FileSaturation : Nat
  FileWidth : Int
  FileHeight : Int
  FileAspectRatio : Float64
  deriving DecidableEq, Repr

/-- Go zero value `var photo models.Photo`. -/
def Photo.zero : Photo :=
  ⟨0, 0, 0, ⟨0, 0, 0⟩, "", "", 0, 0, "", 0, 0, false, 0, 0, "", 0⟩

/-- Go zero value `var file models.File`. -/
def File.zero : File :=
  ⟨0, 0, 0, 0, false, false, "", "", "", "", 0, "", "", "", 0, 0, 0, 0⟩

/-! ## The catalog store (gorm) -/

/-- The tables of the catalog. Each table lists its rows in primary-key order;
`photoTags` is the join table of the many-to-many association `Photo.Tags`. -/
structure DB where
  photos : List Photo
  files : List File
  tags : List Tag
  countries : List Country
  locations : List Location
  cameras : List Camera
  lenses : List Lens
  photoTags : List (Nat × Nat)
  nextPhotoID : Nat
  nextFileID : Nat
  nextTagID : Nat
  nextCameraID : Nat
  nextLensID : Nat
  deriving DecidableEq, Repr

/-- The empty catalog; auto-increment keys start at 1. -/
def DB.empty : DB := ⟨[], [], [], [], [], [], [], [], 1, 1, 1, 1, 1⟩

/-- Primary keys are positive, strictly increasing along the table and below the next key. -/
def keysOk (ids : List Nat) (next : Nat) : Prop :=
  ids.Pairwise (· < ·) ∧ (∀ k ∈ ids, 0 < k ∧ k < next) ∧ 0 < next

instance (ids : List Nat) (next : Nat) : Decidable (keysOk ids next) := by
  unfold keysOk; infer_instance

/-- Well-formed catalog: the photos and the files table have proper primary keys. -/
def DB.WF (db : DB) : Prop :=
  keysOk (db.photos.map (·.ID)) db.nextPhotoID ∧ keysOk (db.files.map (·.ID)) db.nextFileID

instance (db : DB) : Decidable db.WF := by unfold DB.WF; infer_instance

/-- Query `db.First(&photo, "photo_canonical_name = ?", canonicalName)`. -/
def DB.firstPhoto (db : DB) (canonicalName : String) : Option Photo :=
  db.photos.find? (fun p => decide (p.PhotoCanonicalName = canonicalName))

/-- Statement `db.Create(&photo)`: the row gets the next key and the timestamps; the
tags go to the join table. Returns the catalog and the photo as the store filled it in. -/
def DB.createPhoto (db : DB) (now : Int) (photo : Photo) (tags : List Tag) : DB × Photo :=
  let photo := { photo with ID := db.nextPhotoID, CreatedAt := now, UpdatedAt := now }
  ({ db with photos := db.photos ++ [photo], nextPhotoID := db.nextPhotoID + 1,
             photoTags := db.photoTags ++ tags.map (fun t => (photo.ID, t.ID)) }, photo)

/-- Statement `db.Save(&photo)` for a photo that has a key: the row of that key is
overwritten, with a new update timestamp. -/
def DB.savePhoto (db : DB) (now : Int) (photo : Photo) : DB × Photo :=
  let photo := { photo with UpdatedAt := now }
  ({ db with photos := db.photos.map (fun p => if p.ID = photo.ID then photo else p) }, photo)

/-- Query `db.Where("file_type = 'jpg' AND file_primary = 1 AND photo_id = ?", id).First(&primaryFile)`. -/
def DB.firstPrimaryFile (db : DB) (photoID : Nat) : Option File :=
  db.files.find? (fun f => decide (f.FileType = "jpg" ∧ f.FilePrimary = true ∧ f.PhotoID = photoID))

/-- Query `db.First(&file, "file_hash = ? OR file_name = ?", fileHash, relativeFileName)`. -/
def DB.firstFile (db : DB) (fileHash relativeFileName : String) : Option File :=
  db.files.find? (fun f => decide (f.FileHash = fileHash ∨ f.FileName = relativeFileName))

/-- Statement `db.Create(&file)`. -/
def DB.createFile (db : DB) (now : Int) (file : File) : DB :=
  let file := { file with ID := db.nextFileID, CreatedAt := now, UpdatedAt := now }
  { db with files := db.files ++ [file], nextFileID := db.nextFileID + 1 }

/-- Statement `db.Save(&file)` for a file that has a key. -/
def DB.saveFile (db : DB) (now : Int) (file : File) : DB :=
  let file := { file with UpdatedAt := now }
  { db with files := db.files.map (fun f => if f.ID = file.ID then file else f) }

/-- Statement `db.FirstOrCreate(location, "id = ?", location.ID)`: the stored row of that id
is loaded into `location` when there is one, else `location` is inserted. -/
def DB.firstOrCreateLocation (db : DB) (location : Location) : DB × Location :=
  match db.locations.find? (fun l => decide (l.ID = location.ID)) with
  | some l => (db, l)
  | none => ({ db with locations := db.locations ++ [location] }, location)

/-- Modelled from the spec: `models.NewTag(label).FirstOrCreate(db)` (package models is not
among the sources): find-or-create of the Tag whose natural key is the label. -/
def DB.firstOrCreateTag (db : DB) (label : String) : DB × Tag :=
  match db.tags.find? (fun t => decide (t.TagLabel = label)) with
  | some t => (db, t)
  | none =>
    let t : Tag := ⟨db.nextTagID, label⟩
    ({ db with tags := db.tags ++ [t], nextTagID := db.nextTagID + 1 }, t)

/-- Modelled from the spec: `models.NewCountry(code, name).FirstOrCreate(db)`: find-or-create
of the Country whose natural key is the country code; the same key gives the same record. -/
def DB.firstOrCreateCountry (db : DB) (code name : String) : DB × Country :=
  match db.countries.find? (fun c => decide (c.ID = code)) with
  | some c => (db, c)
  | none => ({ db with countries := db.countries ++ [⟨code, name⟩] }, ⟨code, name⟩)

/-- Modelled from the spec: `models.NewCamera(model, make).FirstOrCreate(db)`: find-or-create
of the Camera whose natural key is model and make. -/
def DB.firstOrCreateCamera (db : DB) (model make : String) : DB × Camera :=
  match db.cameras.find? (fun c => decide (c.CameraModel = model ∧ c.CameraMake = make)) with
  | some c => (db, c)
  | none =>
    let c : Camera := ⟨db.nextCameraID, model, make⟩
    ({ db with cameras := db.cameras ++ [c], nextCameraID := db.nextCameraID + 1 }, c)

/-- Modelled from the spec: `models.NewLens(model, make).FirstOrCreate(db)`: find-or-create
of the Lens whose natural key is model and make. -/
def DB.firstOrCreateLens (db : DB) (model make : String) : DB × Lens :=
  match db.lenses.find? (fun c => decide (c.LensModel = model ∧ c.LensMake = make)) with
  | some c => (db, c)
  | none =>
    let c : Lens := ⟨db.nextLensID, model, make⟩
    ({ db with lenses := db.lenses ++ [c], nextLensID := db.nextLensID + 1 }, c)

/-- One step of `ORDER BY ABS(DATEDIFF(taken_at, t)) ASC, id ASC LIMIT 1` along the table. -/
def nearer (t : Time) (best : Option Photo) (p : Photo) : Option Photo :=
  match best with
  | none => some p
  | some b =>
    if (p.TakenAt.day - t.day).natAbs < (b.TakenAt.day - t.day).natAbs then some p else some b

/-- Query `db.Order(gorm.Expr("ABS(DATEDIFF(taken_at, ?)) ASC", t)).Preload("Country").First(&recentPhoto)`:
the photo and its preloaded `Country`. -/
def DB.recentPhoto (db : DB) (t : Time) : Option (Photo × Option Country) :=
  match db.photos.foldl (nearer t) none with
  | none => none
  | some p =>
    some (p, if p.CountryID = "" then none
             else db.countries.find? (fun c => decide (c.ID = p.CountryID)))

/-! ## The Media Inspector and the classifier -/

/-- Result of `jpeg.GetExifData()`. -/
structure ExifData where
  Lat : Float64
  Long : Float64
  Artist : String
  deriving DecidableEq, Repr

/-- The JPEG of a media file, as far as the indexer looks at it: its filename and the
result of `GetExifData()` (`none` for an error). -/
structure Jpeg where
  filename : String
  exifData : Option ExifData
  deriving DecidableEq, Repr

/-- One classifier result; `aboveThreshold` is the outcome of the `float32` comparison
`tag.Probability > 0.15`. -/
structure TensorFlowLabel where
  Label : String
  aboveThreshold : Bool
  deriving DecidableEq, Repr

/-- Modelled from the spec: the constant `FileTypeJpeg` of mediafile.go, the displayable
image type, which the query of line 185 spells `'jpg'`. -/
def FileTypeJpeg : String := "jpg"

/-- A `*MediaFile`, given by what its methods return (`none` for a returned error):
`GetFilename`, `GetCanonicalNameFromFile`, `GetHash`, `GetRelativeFilename(originalsPath)`,
`GetJpeg`, `GetLocation`, `GetDateCreated`, the camera and lens getters, `GetType`,
`GetMimeType`, `GetOrientation`, `IsJpeg`, `Colors`, the dimensions and `IsPhoto`. -/
structure MediaFile where
  filename : String
  canonicalName : String
  hash : String
  relativeFilename : String
  jpeg : Option Jpeg
  location : Option Location
  dateCreated : Time
  cameraModel : String
  cameraMake : String
  lensModel : String
  lensMake : String
  focalLength : Float64
  aperture : Float64
  fileType : String
  mimeType : String
  orientation : Int
  isJpeg : Bool
  mainColor : String
  colors : String
  luminance : String
  saturation : Nat
  width : Int
  height : Int
  aspectRatio : Float64
  isPhoto : Bool
  deriving DecidableEq, Repr

/-- The receiver `i *Indexer` together with the collaborators its methods reach:
the `unicode` tables, the classifier (`tensorFlow.GetImageTagsFromFile`), the clock
(`clock n` is the instant of the call of `indexMediaFile` that follows `n` earlier ones),
`mediaFile.GetRelatedFiles()` (related files and main file) and `NewMediaFile`. -/
structure Indexer where
  originalsPath : String
  unicode : Unicode
  tensorFlow : String → Option (List TensorFlowLabel)
  clock : Nat → Int
  relatedFiles : MediaFile → Option (List MediaFile × MediaFile)
  newMediaFile : String → Option MediaFile

/-! ## indexer.go -/

def indexResultUpdated : String := "Updated"

def indexResultAdded : String := "Added"

/-- Lines 57-73, `Indexer.appendTag`. -/
def appendTag (i : Indexer) (db : DB) (tags : List Tag) (label : String) : DB × List Tag :=
  if label = "" then (db, tags)
  else
    let label := toLower i.unicode label
    if tags.any (fun tag => decide (tag.TagLabel = label)) then (db, tags)
    else
      let r := db.firstOrCreateTag label
      (r.1, tags ++ [r.2])

/-- Lines 41-55, `Indexer.getImageTags`. -/
def getImageTags (i : Indexer) (db : DB) (jpeg : Jpeg) : DB × List Tag :=
  match i.tensorFlow jpeg.filename with
  | none => (db, [])
  | some tags =>
    tags.foldl (fun (acc : DB × List Tag) tag =>
      if tag.aboveThreshold then appendTag i acc.1 acc.2 tag.Label else acc) (db, [])

/-- The local variables of `indexMediaFile` for a photo in the making: the catalog, the
`photo` struct, its `Country` pointer and its `tags`. -/
structure Draft where
  db : DB
  photo : Photo
  country : Option Country
  tags : List Tag

/-- Lines 88-98: EXIF data and classifier tags of a new photo. -/
def draftJpeg (i : Indexer) (db : DB) (mediaFile : MediaFile) : Draft :=
  match mediaFile.jpeg with
  | some jpeg =>
    let photo := match jpeg.exifData with
      | some exifData =>
        { Photo.zero with PhotoLat := exifData.Lat, PhotoLong := exifData.Long,
                          PhotoArtist := exifData.Artist }
      | none => Photo.zero
    let r := getImageTags i db jpeg
    ⟨r.1, photo, none, r.2⟩
  | none => ⟨db, Photo.zero, none, []⟩

/-- Lines 112-122: the title derived from the resolved location. -/
def locationTitle (i : Indexer) (photoTitle : String) (location : Location) (year : String) :
    String :=
  if photoTitle = "" ∧ location.LocName ≠ "" then
    if len location.LocName > 40 then
      title i.unicode location.LocName ++ " / " ++ year
    else
      title i.unicode location.LocName ++ " / " ++ location.LocCity ++ " / " ++ year
  else if photoTitle = "" ∧ location.LocCity ≠ "" then
    location.LocCity ++ " / " ++ location.LocCountry ++ " / " ++ year
  else if photoTitle = "" ∧ location.LocCounty ≠ "" then
    location.LocCounty ++ " / " ++ location.LocCountry ++ " / " ++ year
  else photoTitle

/-- Lines 100-133: the location step of a new photo. -/
def draftLocation (i : Indexer) (d : Draft) (mediaFile : MediaFile) : Draft :=
  match mediaFile.location with
  | some location =>
    let r := d.db.firstOrCreateLocation location
    let location := r.2
    let c := r.1.firstOrCreateCountry location.LocCountryCode location.LocCountry
    let t1 := appendTag i c.1 d.tags location.LocCity
    let t2 := appendTag i t1.1 t1.2 location.LocCounty
    let t3 := appendTag i t2.1 t2.2 location.LocCountry
    let t4 := appendTag i t3.1 t3.2 location.LocCategory
    let t5 := appendTag i t4.1 t4.2 location.LocName
    let t6 := appendTag i t5.1 t5.2 location.LocType
    ⟨t6.1,
     { d.photo with LocationID := location.ID, CountryID := c.2.ID,
                    PhotoTitle := locationTitle i d.photo.PhotoTitle location
                      mediaFile.dateCreated.format2006 },
     some c.2, t6.2⟩
  | none =>
    match d.db.recentPhoto mediaFile.dateCreated with
    | some (_, some country) =>
      ⟨d.db, { d.photo with CountryID := country.ID }, some country, d.tags⟩
    | _ => d

/-- Lines 137-145: the title of a photo that has none yet. -/
def fallbackTitle (i : Indexer) (photoTitle : String) (tags : List Tag)
    (country : Option Country) (year : String) : String :=
  if photoTitle = "" then
    match tags with
    | tag :: _ => title i.unicode tag.TagLabel ++ " / " ++ year
    | [] =>
      match country with
      | some c =>
        if c.CountryName ≠ "" then title i.unicode c.CountryName ++ " / " ++ year
        else "Unknown / " ++ year
      | none => "Unknown / " ++ year
  else photoTitle

/-- Lines 135-154: title, camera, lens and the remaining fields of a new photo. -/
def draftFinish (i : Indexer) (d : Draft) (mediaFile : MediaFile) : Draft :=
  let photoTitle := fallbackTitle i d.photo.PhotoTitle d.tags d.country
    mediaFile.dateCreated.format2006
  let camera := d.db.firstOrCreateCamera mediaFile.cameraModel mediaFile.cameraMake
  let lens := camera.1.firstOrCreateLens mediaFile.lensModel mediaFile.lensMake
  ⟨lens.1,
   { d.photo with PhotoTitle := photoTitle, CameraID := camera.2.ID, LensID := lens.2.ID,
                  PhotoFocalLength := mediaFile.focalLength,
                  PhotoAperture := mediaFile.aperture,
                  TakenAt := mediaFile.dateCreated,
                  PhotoCanonicalName := mediaFile.canonicalName,
                  PhotoFavorite := false },
   d.country, d.tags⟩

/-- Lines 88-156: the branch of a canonical name that has no Photo yet. -/
def newPhoto (i : Indexer) (now : Int) (db : DB) (mediaFile : MediaFile) : DB × Photo :=
  let d := draftFinish i (draftLocation i (draftJpeg i db mediaFile) mediaFile) mediaFile
  d.db.createPhoto now d.photo d.tags

/-- Lines 158-170: camera, lens and EXIF data of a Photo that is refreshed. -/
def refreshJpeg (db : DB) (photo : Photo) (mediaFile : MediaFile) : DB × Photo :=
  match mediaFile.jpeg with
  | some jpeg =>
    let camera := db.firstOrCreateCamera mediaFile.cameraModel mediaFile.cameraMake
    let lens := camera.1.firstOrCreateLens mediaFile.lensModel mediaFile.lensMake
    let photo := { photo with CameraID := camera.2.ID, LensID := lens.2.ID,
                              PhotoFocalLength := mediaFile.focalLength,
                              PhotoAperture := mediaFile.aperture }
    match jpeg.exifData with
    | some exifData =>
      (lens.1, { photo with PhotoLat := exifData.Lat, PhotoLong := exifData.Long,
                            PhotoArtist := exifData.Artist })
    | none => (lens.1, photo)
  | none => (db, photo)

/-- Lines 172-180: the Country of the nearest Photo, for a Photo without location. -/
def refreshCountry (db : DB) (photo : Photo) : Photo :=
  if photo.LocationID = 0 then
    match db.recentPhoto photo.TakenAt with
    | some (_, some country) => { photo with CountryID := country.ID }
    | _ => photo
  else photo

/-- Lines 158-182: the refresh of a Photo updated more than ten minutes ago. -/
def refreshPhoto (now : Int) (db : DB) (photo : Photo) (mediaFile : MediaFile) : DB × Photo :=
  let r := refreshJpeg db photo mediaFile
  r.1.savePhoto now (refreshCountry r.1 r.2)

/-- Lines 85-183: find, create or refresh the Photo of the media file. -/
def indexPhoto (i : Indexer) (now : Int) (db : DB) (mediaFile : MediaFile) : DB × Photo :=
  match db.firstPhoto mediaFile.canonicalName with
  | none => newPhoto i now db mediaFile
  | some photo =>
    if now - photo.UpdatedAt > tenMinutes then refreshPhoto now db photo mediaFile
    else (db, photo)

/-- Lines 185-189: the election of the primary file. -/
def electPrimary (db : DB) (photo : Photo) (mediaFile : MediaFile) : Bool :=
  match db.firstPrimaryFile photo.ID with
  | none => decide (mediaFile.fileType = FileTypeJpeg)
  | some primaryFile =>
    decide (mediaFile.fileType = FileTypeJpeg) &&
      (decide (mediaFile.relativeFilename = primaryFile.FileName) ||
        decide (mediaFile.hash = primaryFile.FileHash))

/-- Lines 193-217: the fields written to the `file` struct. -/
def fillFile (file : File) (photo : Photo) (isPrimary : Bool) (mediaFile : MediaFile) : File :=
  let file := { file with PhotoID := photo.ID, FilePrimary := isPrimary, FileMissing := false,
                          FileName := mediaFile.relativeFilename, FileHash := mediaFile.hash,
                          FileType := mediaFile.fileType, FileMime := mediaFile.mimeType,
                          FileOrientation := mediaFile.orientation }
  let file := if mediaFile.isJpeg then
      { file with FileMainColor := mediaFile.mainColor, FileColors := mediaFile.colors,
                  FileLuminance := mediaFile.luminance, FileSaturation := mediaFile.saturation }
    else file
  if mediaFile.width > 0 ∧ mediaFile.height > 0 then
    { file with FileWidth := mediaFile.width, FileHeight := mediaFile.height,
                FileAspectRatio := mediaFile.aspectRatio }
  else file

/-- Lines 185-225: the File row of the media file, under the Photo `photo`. -/
def indexFile (now : Int) (db : DB) (photo : Photo) (mediaFile : MediaFile) : DB × String :=
  let isPrimary := electPrimary db photo mediaFile
  match db.firstFile mediaFile.hash mediaFile.relativeFilename with
  | some file => (db.saveFile now (fillFile file photo isPrimary mediaFile), indexResultUpdated)
  | none => (db.createFile now (fillFile File.zero photo isPrimary mediaFile), indexResultAdded)

/-- Lines 75-226, `Indexer.indexMediaFile`, called at the instant `now`. -/
def indexMediaFile (i : Indexer) (now : Int) (db : DB) (mediaFile : MediaFile) : DB × String :=
  let r := indexPhoto i now db mediaFile
  indexFile now r.1 r.2 mediaFile

/-- What a run does, in order: `seed path mediaFile` is a call of `IndexRelated` for the
walked `path`, `index mediaFile` a call of `indexMediaFile`. -/
inductive Event where
  | seed (path : String) (mediaFile : MediaFile)
  | index (mediaFile : MediaFile)
  deriving DecidableEq, Repr

/-- The media files passed to `indexMediaFile`, in order. -/
def indexCalls : List Event → List MediaFile
  | [] => []
  | Event.index m :: es => m :: indexCalls es
  | Event.seed _ _ :: es => indexCalls es

/-- State of a run: the catalog and the record of the calls made so far. -/
structure Run where
  db : DB
  events : List Event

/-- A call `i.indexMediaFile(mediaFile)` within a run: the clock is read, the catalog
updated and the call recorded. -/
def Run.index (i : Indexer) (w : Run) (mediaFile : MediaFile) : Run × String :=
  let r := indexMediaFile i (i.clock (indexCalls w.events).length) w.db mediaFile
  (⟨r.1, w.events ++ [Event.index mediaFile]⟩, r.2)

/-- Assignment `indexed[key] = true` on a `map[string]bool`, held as the list of its keys. -/
def mapSet (indexed : List String) (key : String) : List String :=
  if key ∈ indexed then indexed else indexed ++ [key]

/-- Lines 245-254: the body of the loop over the related files. -/
def relatedStep (i : Indexer) (acc : Run × List String) (relatedMediaFile : MediaFile) :
    Run × List String :=
  if relatedMediaFile.filename ∈ acc.2 then acc
  else ((acc.1.index i relatedMediaFile).1, mapSet acc.2 relatedMediaFile.filename)

/-- Lines 229-257, `Indexer.IndexRelated`; `path` is the walked path of the seed. -/
def IndexRelated (i : Indexer) (w : Run) (path : String) (mediaFile : MediaFile) :
    Run × List String :=
  let w : Run := ⟨w.db, w.events ++ [Event.seed path mediaFile]⟩
  match i.relatedFiles mediaFile with
  | none => (w, [])
  | some (relatedFiles, mainFile) =>
    let w := (w.index i mainFile).1
    relatedFiles.foldl (relatedStep i) (w, mapSet [] mainFile.filename)

/-- What `filepath.Walk` passes to its callback: the path, whether `err != nil`, and
`fileInfo.IsDir()`. -/
structure WalkEntry where
  filename : String
  err : Bool
  isDir : Bool
  deriving DecidableEq, Repr

/-- Lines 263-283: the callback of `filepath.Walk`. -/
def walkStep (i : Indexer) (acc : Run × List String) (e : WalkEntry) : Run × List String :=
  if e.err ∨ e.filename ∈ acc.2 then acc
  else if e.isDir ∨ startsWithDot (base e.filename) = true then acc
  else
    match i.newMediaFile e.filename with
    | none => acc
    | some mediaFile =>
      if mediaFile.isPhoto = false then acc
      else
        let r := IndexRelated i acc.1 e.filename mediaFile
        (r.1, r.2.foldl mapSet acc.2)

/-- Lines 260-290, `Indexer.IndexAll`, over the entries `filepath.Walk` visits. -/
def IndexAll (i : Indexer) (w : Run) (walk : List WalkEntry) : Run × List String :=
  walk.foldl (walkStep i) (w, [])

/-! ## Specification vocabulary -/

/-- The distinct elements of a list, in the order of their first occurrence. -/
def distinct : List String → List String
  | [] => []
  | x :: xs => x :: (distinct xs).filter (fun y => decide (y ≠ x))

/-- The fold of `appendTag` over a list of labels, as its callers chain it. -/
def appendTags (i : Indexer) (db : DB) (tags : List Tag) (labels : List String) :
    DB × List Tag :=
  labels.foldl (fun acc label => appendTag i acc.1 acc.2 label) (db, tags)

/-- The catalog `b` has the photos and files tables (and their next keys) of `a`. -/
def DB.sameRecords (a b : DB) : Prop :=
  b.photos = a.photos ∧ b.files = a.files ∧ b.nextPhotoID = a.nextPhotoID ∧
    b.nextFileID = a.nextFileID

/-- No two Photo records share a canonical name. -/
def DB.uniqueNames (db : DB) : Prop := (db.photos.map (·.PhotoCanonicalName)).Nodup

instance (db : DB) : Decidable db.uniqueNames := by unfold DB.uniqueNames; infer_instance

/-- Indexing passes one after the other: each is a run of `IndexAll`, with its own
indexer (collaborators, clock) and its own walk, on the catalog the pass before left. -/
def passes : List (Indexer × List WalkEntry) → DB → DB
  | [], db => db
  | (i, walk) :: rest, db => passes rest (IndexAll i ⟨db, []⟩ walk).1.db

/-- The number of Photo records with the canonical name `name`. -/
def DB.photoCount (db : DB) (name : String) : Nat :=
  db.photos.countP (fun p => decide (p.PhotoCanonicalName = name))

/-- The number of File rows with the hash `hash` or the path `name`. -/
def DB.fileCount (db : DB) (hash name : String) : Nat :=
  db.files.countP (fun f => decide (f.FileHash = hash ∨ f.FileName = name))

/-- The elements of `l`, in order, whose filename is not in `seen` and is not the filename
of an earlier element of `l`. -/
def unseen (seen : List String) (l : List MediaFile) : List MediaFile :=
  (List.range l.length).filterMap (fun k =>
    (l[k]?).bind (fun m =>
      if m.filename ∈ seen ++ (l.take k).map (·.filename) then none else some m))

/-- The filenames of the group of a seed: the main file and the related files that
`GetRelatedFiles` returns for it (none when it fails). -/
def groupNames (i : Indexer) (mediaFile : MediaFile) : List String :=
  match i.relatedFiles mediaFile with
  | none => []
  | some (relatedFiles, mainFile) => mainFile.filename :: relatedFiles.map (·.filename)

/-- The groups of the walked paths agree: two seeds whose groups share a filename lie in
each other's group (and a seed lies in its own group). -/
def groupsAgree (i : Indexer) (walk : List WalkEntry) : Prop :=
  ∀ e1 ∈ walk, ∀ e2 ∈ walk,
    ∀ m1 ∈ i.newMediaFile e1.filename, ∀ m2 ∈ i.newMediaFile e2.filename,
      (∃ x ∈ groupNames i m1, x ∈ groupNames i m2) → e2.filename ∈ groupNames i m1

instance (i : Indexer) (walk : List WalkEntry) : Decidable (groupsAgree i walk) := by
  unfold groupsAgree
  infer_instance

/-- The Location that `db.FirstOrCreate(location, "id = ?", location.ID)` leaves in
`location`: the stored row of that id when there is one, else `location` itself. -/
def DB.storedLocation (db : DB) (location : Location) : Location :=
  match db.locations.find? (fun l => decide (l.ID = location.ID)) with
  | some l => l
  | none => location

/-- The catalog `b` differs from `a` in the tags table at most. -/
def DB.sameButTags (a b : DB) : Prop :=
  b.photos = a.photos ∧ b.countries = a.countries ∧ b.locations = a.locations

/-- The Country that the find-or-create of line 103 yields for `location`: the stored
Country of the country code when there is one, else a new one with the location's
country name. -/
def DB.storedCountry (db : DB) (location : Location) : Country :=
  match db.countries.find? (fun c => decide (c.ID = location.LocCountryCode)) with
  | some c => c
  | none => ⟨location.LocCountryCode, location.LocCountry⟩

/-- The Country inherited from the Photo nearest in date to `t`, when that Photo has one. -/
def DB.inheritedCountry (db : DB) (t : Time) : Option Country :=
  match db.recentPhoto t with
  | some (_, some country) => some country
  | _ => none

/-- The number of File rows of image type (`jpg`) with `primary = true` that the Photo
`photoID` owns. -/
def DB.primaryCount (db : DB) (photoID : Nat) : Nat :=
  db.files.countP
    (fun f => decide (f.FileType = "jpg" ∧ f.FilePrimary = true ∧ f.PhotoID = photoID))

/-! ## Sample inputs -/

/-- An instant `n` minutes after instant 0. -/
def minutes (n : Int) : Int := n * 60000000000

/-- A media file without JPEG, location and camera data, taken in 2023. -/
def sampleFile (name canonicalName hash fileType : String) : MediaFile :=
  ⟨"/originals/" ++ name, canonicalName, hash, name, none, none, ⟨0, 2023, 0⟩, "", "", "", "",
    0, 0, fileType, "", 0, decide (fileType = "jpg"), "", "", "", 0, 0, 0, 0, true⟩

/-- An indexer whose classifier fails, whose clock ticks once a minute and whose
inspector relates a file to nothing but itself. -/
def sampleIndexer : Indexer :=
  ⟨"/originals", Unicode.ascii, fun _ => none, fun n => minutes n, fun m => some ([], m),
    fun _ => none⟩

/-- The catalog after `a.jpg` (canonical name `a`, hash `h1`) was indexed at instant 0. -/
def sampleDB : DB :=
  (indexMediaFile sampleIndexer 0 DB.empty (sampleFile "a.jpg" "a" "h1" "jpg")).1

/-- The Photo of `sampleDB`. -/
def samplePhoto : Photo :=
  ⟨1, 0, 0, ⟨0, 2023, 0⟩, "a", "Unknown / 2023", 0, 0, "", 0, 0, false, 1, 1, "", 0⟩

/-- The catalog `sampleDB` with a second Photo of the canonical name `a`. -/
def duplicateDB : DB :=
  { sampleDB with photos := sampleDB.photos ++ [{ samplePhoto with ID := 2 }],
                  nextPhotoID := 3 }

/-- The File row of `sampleDB`: the primary JPEG of `samplePhoto`. -/
def sampleRow : File :=
  ⟨1, 0, 0, 1, true, false, "a.jpg", "h1", "jpg", "", 0, "", "", "", 0, 0, 0, 0⟩

/-- The group of a RAW file with a JPEG and a sidecar: main file `a.raw`, related files
`a.jpg` and `a.xmp`, whichever file is the seed. -/
def groupIndexer : Indexer :=
  ⟨"/originals", Unicode.ascii, fun _ => none, fun n => minutes n,
    fun _ => some ([sampleFile "a.jpg" "a" "h1" "jpg", sampleFile "a.xmp" "a" "h3" "xmp"],
      sampleFile "a.raw" "a" "h2" "raw"),
    fun path => some { sampleFile "a.jpg" "a" "h1" "jpg" with filename := path }⟩

/-- An inspector whose groups overlap without holding each other's seed: every seed is
its own main file and has the sidecar `c.xmp` as its only related file. -/
def overlapIndexer : Indexer :=
  ⟨"/originals", Unicode.ascii, fun _ => none, fun n => minutes n,
    fun m => some ([sampleFile "c.xmp" "c" "h3" "xmp"], m),
    fun path => some { sampleFile "a.jpg" "a" "h1" "jpg" with filename := path }⟩

/-- A photo taken at Tokyo station: a location name of 16 characters, 48 bytes in UTF-8. -/
def tokyoFile : MediaFile :=
  { sampleFile "t.jpg" "t" "h9" "jpg" with
    location := some ⟨7, "東京都千代田区丸の内一丁目東京駅", "東京", "", "日本", "jp", "", ""⟩ }

/-- A photo of 2019 whose location name has more than 40 characters. -/
def eiffelFile : MediaFile :=
  { sampleFile "e.jpg" "e" "h8" "jpg" with
    location := some ⟨8, "Eiffel Tower Gardens and Promenade Extended Name", "Paris", "",
      "France", "fr", "", ""⟩,
    dateCreated := ⟨0, 2019, -1500⟩ }

/-- A photo whose location resolves to a country code and nothing else. -/
def bareFile : MediaFile :=
  { sampleFile "n.jpg" "n" "h7" "jpg" with location := some ⟨9, "", "", "", "", "fr", "", ""⟩ }

/-- A photo of 2023 taken in Japan. -/
def japanFile : MediaFile :=
  { sampleFile "j.jpg" "j" "h6" "jpg" with
    location := some ⟨10, "", "Kyoto", "", "Japan", "jp", "", ""⟩ }

/-- The catalog after `a.jpg` (no location) and then `e.jpg` (Paris, 2019) were indexed. -/
def franceDB : DB := (indexMediaFile sampleIndexer (minutes 1) sampleDB eiffelFile).1

/-- The catalog after `j.jpg` (Kyoto) was indexed. -/
def japanDB : DB := (indexMediaFile sampleIndexer 0 DB.empty japanFile).1

/-- The catalog after `b.jpg` (canonical name `q`, hash `h2`) and then `a.jpg` (canonical
name `a`, hash `h1`) were indexed: two Photos, each with its primary JPEG. -/
def twoPhotosDB : DB :=
  (indexMediaFile sampleIndexer (minutes 1)
    (indexMediaFile sampleIndexer 0 DB.empty (sampleFile "b.jpg" "q" "h2" "jpg")).1
    (sampleFile "a.jpg" "a" "h1" "jpg")).1

/-- The file `b.jpg` after it was overwritten with a copy of `a.jpg`: the path of the one,
the hash and the canonical name of the other. -/
def overwrittenFile : MediaFile := sampleFile "b.jpg" "a" "h1" "jpg"

/-! ## Properties -/

/-! ### Tags -/

theorem firstOrCreateTag_label (db : DB) (label : String) :
    (db.firstOrCreateTag label).2.TagLabel = label := by
  unfold DB.firstOrCreateTag
  split
  · rename_i t h
    simpa using List.find?_some h
  · rfl

theorem appendTag_labels (i : Indexer) (db : DB) (tags : List Tag) (label : String) :
    (appendTag i db tags label).2.map (·.TagLabel) =
      if label = "" then tags.map (·.TagLabel)
      else if toLower i.unicode label ∈ tags.map (·.TagLabel) then tags.map (·.TagLabel)
      else tags.map (·.TagLabel) ++ [toLower i.unicode label] := by
  unfold appendTag
  by_cases h : label = ""
  · simp [h]
  · simp only [h, if_false]
    by_cases h2 : toLower i.unicode label ∈ tags.map (·.TagLabel)
    · have : (tags.any fun tag => decide (tag.TagLabel = toLower i.unicode label)) = true := by
        simpa using h2
      simp [this, h2]
    · have : ¬ (tags.any fun tag => decide (tag.TagLabel = toLower i.unicode label)) = true := by
        simpa using h2
      simp only [this, h2, if_false]
      simp [firstOrCreateTag_label]

theorem mem_distinct (l : List String) (x : String) : x ∈ distinct l ↔ x ∈ l := by
  induction l with
  | nil => simp [distinct]
  | cons a l ih =>
    simp only [distinct, List.mem_cons, List.mem_filter, ih]
    by_cases h : x = a <;> simp [h]

theorem nodup_distinct (l : List String) : (distinct l).Nodup := by
  induction l with
  | nil => simp [distinct]
  | cons a l ih =>
    simp only [distinct, List.nodup_cons]
    exact ⟨by simp [List.mem_filter], ih.filter _⟩

theorem pairwise_distinct (l : List String) :
    (distinct l).Pairwise (fun x y => l.indexOf x < l.indexOf y) := by
  induction l with
  | nil => simp [distinct]
  | cons a l ih =>
    simp only [distinct, List.pairwise_cons]
    refine ⟨?_, ?_⟩
    · intro y hy
      have hya : y ≠ a := by simpa using (List.mem_filter.1 hy).2
      rw [List.indexOf_cons_self, List.indexOf_cons_ne _ (Ne.symm hya)]
      exact Nat.succ_pos _
    · have hsub := (ih.sublist (List.filter_sublist (distinct l)
        (p := fun y => decide (y ≠ a))))
      apply List.Pairwise.imp_of_mem ?_ hsub
      intro x y hx hy hxy
      have hxa : x ≠ a := by simpa using (List.mem_filter.1 hx).2
      have hya : y ≠ a := by simpa using (List.mem_filter.1 hy).2
      rw [List.indexOf_cons_ne _ (Ne.symm hxa), List.indexOf_cons_ne _ (Ne.symm hya)]
      exact Nat.succ_lt_succ hxy

theorem appendTags_labels (i : Indexer) (labels : List String) (db : DB) (tags : List Tag) :
    (appendTags i db tags labels).2.map (·.TagLabel) =
      tags.map (·.TagLabel) ++
        (distinct ((labels.filter (fun l => decide (l ≠ ""))).map (toLower i.unicode))).filter
          (fun x => decide (x ∉ tags.map (·.TagLabel))) := by
  induction labels generalizing db tags with
  | nil => simp [appendTags, distinct]
  | cons l ls ih =>
    have step : appendTags i db tags (l :: ls) =
        appendTags i (appendTag i db tags l).1 (appendTag i db tags l).2 ls := rfl
    rw [step, ih, appendTag_labels]
    by_cases h : l = ""
    · simp [h]
    · by_cases h2 : toLower i.unicode l ∈ tags.map (·.TagLabel)
      · simp only [h, h2, if_true, if_false, List.filter_cons, ne_eq, not_false_eq_true,
          decide_True, List.map_cons, distinct, not_true_eq_false, decide_False,
          Bool.false_eq_true, List.filter_filter]
        congr 1
        apply List.filter_congr
        intro x _
        by_cases hx : x = toLower i.unicode l
        · subst hx; simp [h2]
        · simp [hx]
      · simp only [h, h2, if_false, List.filter_cons, ne_eq, not_false_eq_true,
          decide_True, if_true, List.map_cons, distinct, List.filter_filter, List.append_assoc,
          List.singleton_append]
        congr 2
        apply List.filter_congr
        intro x _
        rw [Bool.eq_iff_iff]
        simp [List.mem_append, not_or, and_comm]

theorem toLower_eq_empty (u : Unicode) (l : String) : toLower u l = "" ↔ l = "" := by
  unfold toLower
  constructor
  · intro h
    have h1 : (String.mk (l.data.map (runeToLower u))).data = [] := by rw [h]
    have h2 : l.data = [] := by simpa using h1
    exact String.ext h2
  · intro h
    subst h
    rfl

/-- C3: folding `appendTag` over any list of labels, from the empty tag list, yields the
distinct lowercased non-empty labels in the order of their first occurrence: the labels of
the result are `distinct` of the lowercased non-empty labels, no label occurs twice, the
labels are exactly the lowercased non-empty input labels, none is empty, they are ordered
by first occurrence, an empty label and a label already present in lowercase add nothing,
and `["Paris","paris","PARIS","Rome"]` yields `paris`, `rome`. -/
theorem appendTag_fold_distinct (i : Indexer) (db : DB) (labels : List String) :
    let src := (labels.filter (fun l => decide (l ≠ ""))).map (toLower i.unicode)
    let result := (appendTags i db [] labels).2.map (·.TagLabel)
    result = distinct src ∧ result.Nodup ∧
    (∀ x, x ∈ result ↔ ∃ l ∈ labels, l ≠ "" ∧ toLower i.unicode l = x) ∧
    "" ∉ result ∧
    result.Pairwise (fun x y => src.indexOf x < src.indexOf y) ∧
    (∀ (d : DB) (tags : List Tag), appendTag i d tags "" = (d, tags)) ∧
    (∀ (d : DB) (tags : List Tag) (label : String),
      toLower i.unicode label ∈ tags.map (·.TagLabel) → appendTag i d tags label = (d, tags)) ∧
    (appendTags i db [] ["Paris", "paris", "PARIS", "Rome"]).2.map (·.TagLabel)
      = ["paris", "rome"] := by
  intro src result
  have hres : result = distinct src := by
    show (appendTags i db [] labels).2.map (·.TagLabel) = _
    rw [appendTags_labels]
    simp [src]
  have hmem : ∀ x, x ∈ result ↔ ∃ l ∈ labels, l ≠ "" ∧ toLower i.unicode l = x := by
    intro x
    rw [hres, mem_distinct]
    simp [src, List.mem_map, List.mem_filter, and_assoc]
  refine ⟨hres, hres ▸ nodup_distinct src, hmem, ?_, hres ▸ pairwise_distinct src, ?_, ?_, ?_⟩
  · intro h
    obtain ⟨l, _, hl, hx⟩ := (hmem "").1 h
    exact hl ((toLower_eq_empty _ _).1 hx)
  · intro d tags
    simp [appendTag]
  · intro d tags label h
    unfold appendTag
    by_cases hl : label = ""
    · simp [hl]
    · have : (tags.any fun tag => decide (tag.TagLabel = toLower i.unicode label)) = true := by
        simpa using h
      simp [hl, this]
  · rw [appendTags_labels]
    rfl

/-- Witness of C3: the label `PARIS` adds nothing to a tag list that holds `paris`. -/
theorem appendTag_fold_distinct_witness :
    toLower sampleIndexer.unicode "PARIS" ∈ [(⟨1, "paris"⟩ : Tag)].map (·.TagLabel) ∧
    appendTag sampleIndexer DB.empty [⟨1, "paris"⟩] "PARIS" = (DB.empty, [⟨1, "paris"⟩]) :=
  ⟨by decide,
   (appendTag_fold_distinct sampleIndexer DB.empty []).2.2.2.2.2.2.1 DB.empty [⟨1, "paris"⟩]
     "PARIS" (by decide)⟩

/-! ### Frame: what the reference tables leave alone -/

theorem DB.sameRecords.refl (a : DB) : a.sameRecords a := ⟨rfl, rfl, rfl, rfl⟩

theorem DB.sameRecords.trans {a b c : DB} (h1 : a.sameRecords b) (h2 : b.sameRecords c) :
    a.sameRecords c :=
  ⟨h2.1.trans h1.1, h2.2.1.trans h1.2.1, h2.2.2.1.trans h1.2.2.1, h2.2.2.2.trans h1.2.2.2⟩

theorem firstOrCreateTag_same (db : DB) (label : String) :
    db.sameRecords (db.firstOrCreateTag label).1 := by
  unfold DB.firstOrCreateTag
  split
  · exact DB.sameRecords.refl db
  · exact ⟨rfl, rfl, rfl, rfl⟩

theorem firstOrCreateCountry_same (db : DB) (code name : String) :
    db.sameRecords (db.firstOrCreateCountry code name).1 := by
  unfold DB.firstOrCreateCountry
  split
  · exact DB.sameRecords.refl db
  · exact ⟨rfl, rfl, rfl, rfl⟩

theorem firstOrCreateLocation_same (db : DB) (location : Location) :
    db.sameRecords (db.firstOrCreateLocation location).1 := by
  unfold DB.firstOrCreateLocation
  split
  · exact DB.sameRecords.refl db
  · exact ⟨rfl, rfl, rfl, rfl⟩

theorem firstOrCreateCamera_same (db : DB) (model make : String) :
    db.sameRecords (db.firstOrCreateCamera model make).1 := by
  unfold DB.firstOrCreateCamera
  split
  · exact DB.sameRecords.refl db
  · exact ⟨rfl, rfl, rfl, rfl⟩

theorem firstOrCreateLens_same (db : DB) (model make : String) :
    db.sameRecords (db.firstOrCreateLens model make).1 := by
  unfold DB.firstOrCreateLens
  split
  · exact DB.sameRecords.refl db
  · exact ⟨rfl, rfl, rfl, rfl⟩

theorem appendTag_same (i : Indexer) (db : DB) (tags : List Tag) (label : String) :
    db.sameRecords (appendTag i db tags label).1 := by
  unfold appendTag
  split
  · exact DB.sameRecords.refl db
  · dsimp only
    split
    · exact DB.sameRecords.refl db
    · exact firstOrCreateTag_same db _

theorem getImageTags_same (i : Indexer) (db : DB) (jpeg : Jpeg) :
    db.sameRecords (getImageTags i db jpeg).1 := by
  unfold getImageTags
  split
  · exact DB.sameRecords.refl db
  · rename_i tags _
    generalize ([] : List Tag) = acc
    have key : ∀ (l : List TensorFlowLabel) (d : DB) (acc : List Tag), db.sameRecords d →
        db.sameRecords (l.foldl (fun (acc : DB × List Tag) tag =>
          if tag.aboveThreshold then appendTag i acc.1 acc.2 tag.Label else acc) (d, acc)).1 := by
      intro l
      induction l with
      | nil => intro d acc h; exact h
      | cons t l ih =>
        intro d acc h
        rw [List.foldl_cons]
        split
        · exact ih _ _ (h.trans (appendTag_same i d acc t.Label))
        · exact ih _ _ h
    exact key tags db acc (DB.sameRecords.refl db)

theorem draftJpeg_same (i : Indexer) (db : DB) (mediaFile : MediaFile) :
    db.sameRecords (draftJpeg i db mediaFile).db := by
  unfold draftJpeg
  split
  · exact getImageTags_same i db _
  · exact DB.sameRecords.refl db

theorem draftLocation_same (i : Indexer) (d : Draft) (mediaFile : MediaFile) :
    d.db.sameRecords (draftLocation i d mediaFile).db := by
  unfold draftLocation
  split
  · exact ((((((((firstOrCreateLocation_same _ _).trans (firstOrCreateCountry_same _ _ _)).trans
      (appendTag_same _ _ _ _)).trans (appendTag_same _ _ _ _)).trans
      (appendTag_same _ _ _ _)).trans (appendTag_same _ _ _ _)).trans
      (appendTag_same _ _ _ _)).trans (appendTag_same _ _ _ _))
  · split
    · exact DB.sameRecords.refl _
    · exact DB.sameRecords.refl _

theorem draftFinish_same (i : Indexer) (d : Draft) (mediaFile : MediaFile) :
    d.db.sameRecords (draftFinish i d mediaFile).db :=
  (firstOrCreateCamera_same _ _ _).trans (firstOrCreateLens_same _ _ _)

theorem draft_same (i : Indexer) (db : DB) (mediaFile : MediaFile) :
    db.sameRecords
      (draftFinish i (draftLocation i (draftJpeg i db mediaFile) mediaFile) mediaFile).db :=
  ((draftJpeg_same i db mediaFile).trans (draftLocation_same i _ mediaFile)).trans
    (draftFinish_same i _ mediaFile)

/-! ### The photo step -/

theorem newPhoto_spec (i : Indexer) (now : Int) (db : DB) (mediaFile : MediaFile) :
    (newPhoto i now db mediaFile).1.photos = db.photos ++ [(newPhoto i now db mediaFile).2] ∧
      (newPhoto i now db mediaFile).1.files = db.files ∧
      (newPhoto i now db mediaFile).1.nextPhotoID = db.nextPhotoID + 1 ∧
      (newPhoto i now db mediaFile).1.nextFileID = db.nextFileID ∧
      (newPhoto i now db mediaFile).2.ID = db.nextPhotoID ∧
      (newPhoto i now db mediaFile).2.UpdatedAt = now ∧
      (newPhoto i now db mediaFile).2.PhotoCanonicalName = mediaFile.canonicalName := by
  have h := draft_same i db mediaFile
  refine ⟨?_, h.2.1, ?_, h.2.2.2, h.2.2.1, rfl, rfl⟩
  · show _ ++ _ = _
    rw [h.1]
    rfl
  · show _ + 1 = _
    rw [h.2.2.1]

theorem refreshJpeg_spec (db : DB) (photo : Photo) (mediaFile : MediaFile) :
    db.sameRecords (refreshJpeg db photo mediaFile).1 ∧
      (refreshJpeg db photo mediaFile).2.ID = photo.ID ∧
      (refreshJpeg db photo mediaFile).2.PhotoCanonicalName = photo.PhotoCanonicalName := by
  unfold refreshJpeg
  have h := (firstOrCreateCamera_same db mediaFile.cameraModel mediaFile.cameraMake).trans
    (firstOrCreateLens_same _ mediaFile.lensModel mediaFile.lensMake)
  split
  · dsimp only
    split
    · exact ⟨h, rfl, rfl⟩
    · exact ⟨h, rfl, rfl⟩
  · exact ⟨DB.sameRecords.refl db, rfl, rfl⟩

theorem refreshCountry_spec (db : DB) (photo : Photo) :
    (refreshCountry db photo).ID = photo.ID ∧
      (refreshCountry db photo).PhotoCanonicalName = photo.PhotoCanonicalName := by
  unfold refreshCountry
  split
  · split
    · exact ⟨rfl, rfl⟩
    · exact ⟨rfl, rfl⟩
  · exact ⟨rfl, rfl⟩

theorem refreshPhoto_spec (now : Int) (db : DB) (photo : Photo) (mediaFile : MediaFile) :
    (refreshPhoto now db photo mediaFile).1.photos =
        db.photos.map (fun p => if p.ID = photo.ID then (refreshPhoto now db photo mediaFile).2
          else p) ∧
      (refreshPhoto now db photo mediaFile).1.files = db.files ∧
      (refreshPhoto now db photo mediaFile).1.nextPhotoID = db.nextPhotoID ∧
      (refreshPhoto now db photo mediaFile).1.nextFileID = db.nextFileID ∧
      (refreshPhoto now db photo mediaFile).2.ID = photo.ID ∧
      (refreshPhoto now db photo mediaFile).2.UpdatedAt = now ∧
      (refreshPhoto now db photo mediaFile).2.PhotoCanonicalName = photo.PhotoCanonicalName := by
  have h := refreshJpeg_spec db photo mediaFile
  have hc := refreshCountry_spec (refreshJpeg db photo mediaFile).1
    (refreshJpeg db photo mediaFile).2
  refine ⟨?_, h.1.2.1, h.1.2.2.1, h.1.2.2.2, hc.1.trans h.2.1, rfl, hc.2.trans h.2.2⟩
  show List.map _ _ = _
  rw [h.1.1]
  have e : (refreshCountry (refreshJpeg db photo mediaFile).1
      (refreshJpeg db photo mediaFile).2).ID = photo.ID := hc.1.trans h.2.1
  apply List.map_congr_left
  intro p _
  refine if_congr ?_ rfl rfl
  show p.ID = (refreshCountry (refreshJpeg db photo mediaFile).1
      (refreshJpeg db photo mediaFile).2).ID ↔ _
  rw [e]

theorem indexPhoto_files (i : Indexer) (now : Int) (db : DB) (mediaFile : MediaFile) :
    (indexPhoto i now db mediaFile).1.files = db.files ∧
      (indexPhoto i now db mediaFile).1.nextFileID = db.nextFileID := by
  unfold indexPhoto
  split
  · exact ⟨(newPhoto_spec i now db mediaFile).2.1, (newPhoto_spec i now db mediaFile).2.2.2.1⟩
  · split
    · exact ⟨(refreshPhoto_spec now db _ mediaFile).2.1,
        (refreshPhoto_spec now db _ mediaFile).2.2.2.1⟩
    · exact ⟨rfl, rfl⟩

/-! ### The file step -/

theorem fillFile_spec (file : File) (photo : Photo) (isPrimary : Bool) (mediaFile : MediaFile) :
    (fillFile file photo isPrimary mediaFile).ID = file.ID ∧
      (fillFile file photo isPrimary mediaFile).PhotoID = photo.ID ∧
      (fillFile file photo isPrimary mediaFile).FilePrimary = isPrimary ∧
      (fillFile file photo isPrimary mediaFile).FileName = mediaFile.relativeFilename ∧
      (fillFile file photo isPrimary mediaFile).FileHash = mediaFile.hash ∧
      (fillFile file photo isPrimary mediaFile).FileType = mediaFile.fileType := by
  unfold fillFile
  dsimp only
  split <;> split <;> exact ⟨rfl, rfl, rfl, rfl, rfl, rfl⟩

theorem indexFile_photos (now : Int) (db : DB) (photo : Photo) (mediaFile : MediaFile) :
    (indexFile now db photo mediaFile).1.photos = db.photos ∧
      (indexFile now db photo mediaFile).1.nextPhotoID = db.nextPhotoID := by
  unfold indexFile
  dsimp only
  split <;> exact ⟨rfl, rfl⟩

theorem electPrimary_iff (db : DB) (photo : Photo) (mediaFile : MediaFile) :
    electPrimary db photo mediaFile = true ↔
      mediaFile.fileType = FileTypeJpeg ∧
        (db.firstPrimaryFile photo.ID = none ∨
          ∃ p, db.firstPrimaryFile photo.ID = some p ∧
            (mediaFile.relativeFilename = p.FileName ∨ mediaFile.hash = p.FileHash)) := by
  unfold electPrimary
  cases h : db.firstPrimaryFile photo.ID with
  | none => simp
  | some p => simp

theorem indexFile_files (now : Int) (db : DB) (photo : Photo) (mediaFile : MediaFile) :
    ∃ f : File,
      f.FilePrimary = electPrimary db photo mediaFile ∧ f.PhotoID = photo.ID ∧
      f.FileName = mediaFile.relativeFilename ∧ f.FileHash = mediaFile.hash ∧
      f.FileType = mediaFile.fileType ∧
      f ∈ (indexFile now db photo mediaFile).1.files ∧
      (indexFile now db photo mediaFile).1.nextFileID =
        (match db.firstFile mediaFile.hash mediaFile.relativeFilename with
          | some _ => db.nextFileID
          | none => db.nextFileID + 1) ∧
      f.ID =
        (match db.firstFile mediaFile.hash mediaFile.relativeFilename with
          | some old => old.ID
          | none => db.nextFileID) ∧
      (indexFile now db photo mediaFile).2 =
        (match db.firstFile mediaFile.hash mediaFile.relativeFilename with
          | some _ => indexResultUpdated
          | none => indexResultAdded) ∧
      (indexFile now db photo mediaFile).1.files =
        match db.firstFile mediaFile.hash mediaFile.relativeFilename with
        | some old => db.files.map (fun g => if g.ID = old.ID then f else g)
        | none => db.files ++ [f] := by
  unfold indexFile
  cases h : db.firstFile mediaFile.hash mediaFile.relativeFilename with
  | none =>
    have hs := fillFile_spec File.zero photo (electPrimary db photo mediaFile) mediaFile
    refine ⟨{ fillFile File.zero photo (electPrimary db photo mediaFile) mediaFile with
      ID := db.nextFileID, CreatedAt := now, UpdatedAt := now },
      hs.2.2.1, hs.2.1, hs.2.2.2.1, hs.2.2.2.2.1, hs.2.2.2.2.2, ?_, rfl, rfl, rfl, rfl⟩
    simp [DB.createFile]
  | some old =>
    have hs := fillFile_spec old photo (electPrimary db photo mediaFile) mediaFile
    refine ⟨{ fillFile old photo (electPrimary db photo mediaFile) mediaFile with
      UpdatedAt := now },
      hs.2.2.1, hs.2.1, hs.2.2.2.1, hs.2.2.2.2.1, hs.2.2.2.2.2, ?_, rfl, hs.1, rfl, ?_⟩
    · have hmem : old ∈ db.files := List.mem_of_find?_eq_some h
      simp only [DB.saveFile, List.mem_map]
      exact ⟨old, hmem, by simp [hs.1]⟩
    · simp only [DB.saveFile]
      apply List.map_congr_left
      intro g _
      refine if_congr ?_ rfl rfl
      show g.ID = (fillFile old photo (electPrimary db photo mediaFile) mediaFile).ID ↔ _
      rw [hs.1]

/-- C4: the File record `f` that `indexMediaFile` writes (appended when the lookup by hash
or path finds no row, else stored over the row found) has `primary = true` exactly when the
media file is of type JPEG and either the Photo has no primary image-type File, or the
relative path equals the path of that primary File, or the hash equals its hash; so a JPEG
with the hash of the primary File is elected whatever its path, and a file that matches
neither the hash nor the path of the primary File is not. -/
theorem indexMediaFile_primary (i : Indexer) (now : Int) (db : DB) (mediaFile : MediaFile) :
    ∃ f : File,
      (f.FilePrimary = true ↔
        mediaFile.fileType = FileTypeJpeg ∧
          (db.firstPrimaryFile (indexPhoto i now db mediaFile).2.ID = none ∨
            ∃ p, db.firstPrimaryFile (indexPhoto i now db mediaFile).2.ID = some p ∧
              (mediaFile.relativeFilename = p.FileName ∨ mediaFile.hash = p.FileHash))) ∧
      (∀ p, db.firstPrimaryFile (indexPhoto i now db mediaFile).2.ID = some p →
        mediaFile.fileType = FileTypeJpeg → mediaFile.hash = p.FileHash →
        f.FilePrimary = true) ∧
      (∀ p, db.firstPrimaryFile (indexPhoto i now db mediaFile).2.ID = some p →
        mediaFile.hash ≠ p.FileHash → mediaFile.relativeFilename ≠ p.FileName →
        f.FilePrimary = false) ∧
      f.PhotoID = (indexPhoto i now db mediaFile).2.ID ∧
      f.FileName = mediaFile.relativeFilename ∧ f.FileHash = mediaFile.hash ∧
      f ∈ (indexMediaFile i now db mediaFile).1.files ∧
      (indexMediaFile i now db mediaFile).1.files =
        match db.firstFile mediaFile.hash mediaFile.relativeFilename with
        | some old => db.files.map (fun g => if g.ID = old.ID then f else g)
        | none => db.files ++ [f] := by
  have hf := (indexPhoto_files i now db mediaFile).1
  obtain ⟨f, h1, h2, h3, h4, _, h6, _, _, _, h10⟩ :=
    indexFile_files now (indexPhoto i now db mediaFile).1 (indexPhoto i now db mediaFile).2
      mediaFile
  have hp : ∀ k, (indexPhoto i now db mediaFile).1.firstPrimaryFile k = db.firstPrimaryFile k := by
    intro k; simp only [DB.firstPrimaryFile, hf]
  have hq : (indexPhoto i now db mediaFile).1.firstFile mediaFile.hash
      mediaFile.relativeFilename = db.firstFile mediaFile.hash mediaFile.relativeFilename := by
    simp only [DB.firstFile, hf]
  have hiff := electPrimary_iff (indexPhoto i now db mediaFile).1
    (indexPhoto i now db mediaFile).2 mediaFile
  rw [hp] at hiff
  rw [hq, hf] at h10
  refine ⟨f, h1 ▸ hiff, ?_, ?_, h2, h3, h4, h6, h10⟩
  · intro p hp1 ht hh
    rw [h1]
    exact hiff.2 ⟨ht, Or.inr ⟨p, hp1, Or.inr hh⟩⟩
  · intro p hp1 hh hn
    rw [h1]
    cases he : electPrimary (indexPhoto i now db mediaFile).1
      (indexPhoto i now db mediaFile).2 mediaFile with
    | false => rfl
    | true =>
      rcases (hiff.1 he).2 with hnone | ⟨q, hq1, hq2⟩
      · rw [hp1] at hnone; cases hnone
      · rw [hp1] at hq1
        cases hq1
        rcases hq2 with h | h
        · exact absurd h hn
        · exact absurd h hh

/-- Witness of C4: the Photo `a` has the primary File `a.jpg` with hash `h1`; the JPEG
`copy/a.jpg` with the same hash is written as primary. -/
theorem indexMediaFile_primary_witness :
    sampleDB.firstPrimaryFile (indexPhoto sampleIndexer (minutes 1) sampleDB
      (sampleFile "copy/a.jpg" "a" "h1" "jpg")).2.ID = some sampleRow ∧
    ∃ f : File, f.FilePrimary = true ∧ f.FileName = "copy/a.jpg" ∧
      f ∈ (indexMediaFile sampleIndexer (minutes 1) sampleDB
        (sampleFile "copy/a.jpg" "a" "h1" "jpg")).1.files :=
  ⟨by decide,
   (indexMediaFile_primary sampleIndexer (minutes 1) sampleDB
      (sampleFile "copy/a.jpg" "a" "h1" "jpg")).elim
    (fun f h => ⟨f, h.2.1 sampleRow (by decide) (by decide) (by decide), h.2.2.2.2.1,
      h.2.2.2.2.2.2.1⟩)⟩

/-! ### Primary keys -/

theorem keysOk_append {ids : List Nat} {next : Nat} (h : keysOk ids next) :
    keysOk (ids ++ [next]) (next + 1) := by
  have hn : 0 < next := h.2.2
  refine ⟨?_, ?_, Nat.succ_pos _⟩
  · rw [List.pairwise_append]
    refine ⟨h.1, List.pairwise_singleton _ _, ?_⟩
    intro a ha b hb
    rw [List.mem_singleton] at hb
    subst hb
    exact (h.2.1 a ha).2
  · intro k hk
    rw [List.mem_append, List.mem_singleton] at hk
    rcases hk with hk | hk
    · exact ⟨(h.2.1 k hk).1, Nat.lt_succ_of_lt (h.2.1 k hk).2⟩
    · subst hk
      exact ⟨hn, Nat.lt_succ_self _⟩

theorem keysOk_nodup {ids : List Nat} {next : Nat} (h : keysOk ids next) : ids.Nodup :=
  h.1.imp (fun hab => Nat.ne_of_lt hab)

theorem photo_eq_of_ID {db : DB} (h : db.WF) {a b : Photo} (ha : a ∈ db.photos)
    (hb : b ∈ db.photos) (hab : a.ID = b.ID) : a = b :=
  List.inj_on_of_nodup_map (keysOk_nodup h.1) ha hb hab

theorem file_eq_of_ID {db : DB} (h : db.WF) {a b : File} (ha : a ∈ db.files)
    (hb : b ∈ db.files) (hab : a.ID = b.ID) : a = b :=
  List.inj_on_of_nodup_map (keysOk_nodup h.2) ha hb hab

theorem map_replace_ID {α : Type} (key : α → Nat) (l : List α) (k : Nat) (x : α)
    (hx : key x = k) : (l.map (fun a => if key a = k then x else a)).map key = l.map key := by
  rw [List.map_map]
  apply List.map_congr_left
  intro a _
  show key (if key a = k then x else a) = key a
  split
  · rename_i h; rw [hx, h]
  · rfl

theorem firstPhoto_mem {db : DB} {name : String} {photo : Photo}
    (h : db.firstPhoto name = some photo) :
    photo ∈ db.photos ∧ photo.PhotoCanonicalName = name :=
  ⟨List.mem_of_find?_eq_some h, by simpa using List.find?_some h⟩

theorem firstFile_mem {db : DB} {hash name : String} {file : File}
    (h : db.firstFile hash name = some file) :
    file ∈ db.files ∧ (file.FileHash = hash ∨ file.FileName = name) :=
  ⟨List.mem_of_find?_eq_some h, by simpa using List.find?_some h⟩

theorem indexPhoto_WF (i : Indexer) (now : Int) (db : DB) (mediaFile : MediaFile)
    (h : db.WF) : (indexPhoto i now db mediaFile).1.WF := by
  unfold indexPhoto
  split
  · have s := newPhoto_spec i now db mediaFile
    refine ⟨?_, ?_⟩
    · rw [s.1, s.2.2.1, List.map_append, List.map_singleton, s.2.2.2.2.1]
      exact keysOk_append h.1
    · rw [s.2.1, s.2.2.2.1]
      exact h.2
  · split
    · rename_i photo _ _
      have s := refreshPhoto_spec now db photo mediaFile
      refine ⟨?_, ?_⟩
      · rw [s.1, s.2.2.1, map_replace_ID (fun p : Photo => p.ID) _ _ _ s.2.2.2.2.1]
        exact h.1
      · rw [s.2.1, s.2.2.2.1]
        exact h.2
    · exact h

theorem indexFile_WF (now : Int) (db : DB) (photo : Photo) (mediaFile : MediaFile)
    (h : db.WF) : (indexFile now db photo mediaFile).1.WF := by
  obtain ⟨f, _, _, _, _, _, _, hnext, hid, _, hfiles⟩ := indexFile_files now db photo mediaFile
  have hp := indexFile_photos now db photo mediaFile
  refine ⟨by rw [hp.1, hp.2]; exact h.1, ?_⟩
  rw [hfiles, hnext]
  cases hq : db.firstFile mediaFile.hash mediaFile.relativeFilename with
  | none =>
    rw [hq] at hid
    simp only [List.map_append, List.map_singleton, hid]
    exact keysOk_append h.2
  | some old =>
    rw [hq] at hid
    simp only []
    rw [map_replace_ID (fun g : File => g.ID) _ _ _ hid]
    exact h.2

theorem indexMediaFile_WF (i : Indexer) (now : Int) (db : DB) (mediaFile : MediaFile)
    (h : db.WF) : (indexMediaFile i now db mediaFile).1.WF :=
  indexFile_WF now _ _ mediaFile (indexPhoto_WF i now db mediaFile h)

theorem indexMediaFile_photos (i : Indexer) (now : Int) (db : DB) (mediaFile : MediaFile) :
    (indexMediaFile i now db mediaFile).1.photos = (indexPhoto i now db mediaFile).1.photos :=
  (indexFile_photos now _ _ mediaFile).1

/-! ### Canonical names -/

theorem indexPhoto_uniqueNames (i : Indexer) (now : Int) (db : DB) (mediaFile : MediaFile)
    (h : db.WF) (hu : db.uniqueNames) : (indexPhoto i now db mediaFile).1.uniqueNames := by
  unfold indexPhoto
  cases hq : db.firstPhoto mediaFile.canonicalName with
  | none =>
    have s := newPhoto_spec i now db mediaFile
    show ((newPhoto i now db mediaFile).1.photos.map (·.PhotoCanonicalName)).Nodup
    rw [s.1, List.map_append, List.map_singleton, s.2.2.2.2.2.2]
    have hnot : mediaFile.canonicalName ∉ db.photos.map (·.PhotoCanonicalName) := by
      intro hmem
      obtain ⟨p, hp, hpn⟩ := List.mem_map.1 hmem
      have := List.find?_eq_none.1 hq p hp
      simp [hpn] at this
    rw [List.nodup_append]
    refine ⟨hu, List.nodup_singleton _, ?_⟩
    intro a ha hb
    rw [List.mem_singleton] at hb
    exact hnot (hb ▸ ha)
  | some photo =>
    dsimp only
    split
    · have s := refreshPhoto_spec now db photo mediaFile
      have hm := firstPhoto_mem hq
      show ((refreshPhoto now db photo mediaFile).1.photos.map (·.PhotoCanonicalName)).Nodup
      have e : (refreshPhoto now db photo mediaFile).1.photos.map (·.PhotoCanonicalName) =
          db.photos.map (·.PhotoCanonicalName) := by
        rw [s.1, List.map_map]
        apply List.map_congr_left
        intro p hp
        show (if p.ID = photo.ID then _ else p).PhotoCanonicalName = p.PhotoCanonicalName
        split
        · rename_i hid
          rw [s.2.2.2.2.2.2, photo_eq_of_ID h hp hm.1 hid]
        · rfl
      rw [e]
      exact hu
    · exact hu

theorem indexMediaFile_inv (i : Indexer) (now : Int) (db : DB) (mediaFile : MediaFile)
    (h : db.WF ∧ db.uniqueNames) :
    (indexMediaFile i now db mediaFile).1.WF ∧ (indexMediaFile i now db mediaFile).1.uniqueNames := by
  refine ⟨indexMediaFile_WF i now db mediaFile h.1, ?_⟩
  show ((indexMediaFile i now db mediaFile).1.photos.map (·.PhotoCanonicalName)).Nodup
  rw [indexMediaFile_photos]
  exact indexPhoto_uniqueNames i now db mediaFile h.1 h.2

theorem relatedStep_inv (i : Indexer) (acc : Run × List String) (m : MediaFile)
    (h : acc.1.db.WF ∧ acc.1.db.uniqueNames) :
    (relatedStep i acc m).1.db.WF ∧ (relatedStep i acc m).1.db.uniqueNames := by
  unfold relatedStep
  split
  · exact h
  · exact indexMediaFile_inv i _ _ m h

theorem foldl_inv {α β : Type} (P : α → Prop) (f : α → β → α)
    (hf : ∀ a b, P a → P (f a b)) (l : List β) (a : α) (ha : P a) : P (l.foldl f a) := by
  induction l generalizing a with
  | nil => exact ha
  | cons b l ih => exact ih _ (hf a b ha)

theorem IndexRelated_inv (i : Indexer) (w : Run) (path : String) (mediaFile : MediaFile)
    (h : w.db.WF ∧ w.db.uniqueNames) :
    (IndexRelated i w path mediaFile).1.db.WF ∧
      (IndexRelated i w path mediaFile).1.db.uniqueNames := by
  unfold IndexRelated
  dsimp only
  split
  · exact h
  · exact foldl_inv (fun acc : Run × List String => acc.1.db.WF ∧ acc.1.db.uniqueNames) _
      (relatedStep_inv i) _ _ (indexMediaFile_inv i _ _ _ h)

theorem walkStep_inv (i : Indexer) (acc : Run × List String) (e : WalkEntry)
    (h : acc.1.db.WF ∧ acc.1.db.uniqueNames) :
    (walkStep i acc e).1.db.WF ∧ (walkStep i acc e).1.db.uniqueNames := by
  unfold walkStep
  split
  · exact h
  · split
    · exact h
    · split
      · exact h
      · split
        · exact h
        · exact IndexRelated_inv i _ _ _ h

theorem IndexAll_inv (i : Indexer) (w : Run) (walk : List WalkEntry)
    (h : w.db.WF ∧ w.db.uniqueNames) :
    (IndexAll i w walk).1.db.WF ∧ (IndexAll i w walk).1.db.uniqueNames :=
  foldl_inv (fun acc : Run × List String => acc.1.db.WF ∧ acc.1.db.uniqueNames) _
    (walkStep_inv i) _ _ h

theorem passes_inv (runs : List (Indexer × List WalkEntry)) (db : DB)
    (h : db.WF ∧ db.uniqueNames) : (passes runs db).WF ∧ (passes runs db).uniqueNames := by
  induction runs generalizing db with
  | nil => exact h
  | cons r rest ih =>
    obtain ⟨i, walk⟩ := r
    exact ih _ (IndexAll_inv i ⟨db, []⟩ walk h)

theorem empty_inv : DB.empty.WF ∧ DB.empty.uniqueNames := by decide

/-- C2: canonical-name uniqueness is an invariant of `indexMediaFile`: on a catalog whose
primary keys are proper and in which no two Photos share a canonical name, the catalog
after the call has no two Photos with the same canonical name; a call whose lookup by
canonical name finds a Photo adds no Photo; and after any number of indexing passes from
the empty catalog every canonical name has at most one Photo. -/
theorem indexMediaFile_uniqueNames :
    (∀ (i : Indexer) (now : Int) (db : DB) (mediaFile : MediaFile),
      db.WF → db.uniqueNames → (indexMediaFile i now db mediaFile).1.uniqueNames) ∧
    (∀ (i : Indexer) (now : Int) (db : DB) (mediaFile : MediaFile),
      db.firstPhoto mediaFile.canonicalName ≠ none →
      (indexMediaFile i now db mediaFile).1.photos.length = db.photos.length) ∧
    (∀ runs : List (Indexer × List WalkEntry), (passes runs DB.empty).uniqueNames) ∧
    (∀ (runs : List (Indexer × List WalkEntry)) (name : String),
      ((passes runs DB.empty).photos.map (·.PhotoCanonicalName)).count name ≤ 1) := by
  refine ⟨fun i now db m h hu => (indexMediaFile_inv i now db m ⟨h, hu⟩).2, ?_,
    fun runs => (passes_inv runs _ empty_inv).2,
    fun runs name => List.nodup_iff_count_le_one.1 (passes_inv runs _ empty_inv).2 name⟩
  intro i now db m hq
  rw [indexMediaFile_photos]
  unfold indexPhoto
  cases hq2 : db.firstPhoto m.canonicalName with
  | none => exact absurd hq2 hq
  | some photo =>
    dsimp only
    split
    · rw [(refreshPhoto_spec now db photo m).1, List.length_map]
    · rfl

/-- Witness of C2: `b.jpg` indexed into the sample catalog, which holds the Photo `a`. -/
theorem indexMediaFile_uniqueNames_witness :
    sampleDB.WF ∧ sampleDB.uniqueNames ∧
    (indexMediaFile sampleIndexer (minutes 1) sampleDB
      (sampleFile "b.jpg" "b" "h2" "jpg")).1.uniqueNames :=
  ⟨by decide, by decide,
   indexMediaFile_uniqueNames.1 sampleIndexer (minutes 1) sampleDB
     (sampleFile "b.jpg" "b" "h2" "jpg") (by decide) (by decide)⟩

theorem indexFile_photoTags (now : Int) (db : DB) (photo : Photo) (mediaFile : MediaFile) :
    (indexFile now db photo mediaFile).1.photoTags = db.photoTags := by
  unfold indexFile
  dsimp only
  split <;> rfl

theorem refreshJpeg_focal (db : DB) (photo : Photo) (mediaFile : MediaFile) (jpeg : Jpeg)
    (h : mediaFile.jpeg = some jpeg) :
    (refreshJpeg db photo mediaFile).2.PhotoFocalLength = mediaFile.focalLength ∧
      (refreshJpeg db photo mediaFile).2.PhotoAperture = mediaFile.aperture := by
  unfold refreshJpeg
  rw [h]
  dsimp only
  split <;> exact ⟨rfl, rfl⟩

theorem refreshCountry_focal (db : DB) (photo : Photo) :
    (refreshCountry db photo).PhotoFocalLength = photo.PhotoFocalLength ∧
      (refreshCountry db photo).PhotoAperture = photo.PhotoAperture := by
  unfold refreshCountry
  split
  · split <;> exact ⟨rfl, rfl⟩
  · exact ⟨rfl, rfl⟩

theorem indexPhoto_fresh (i : Indexer) (now : Int) (db : DB) (mediaFile : MediaFile)
    (photo : Photo) (hq : db.firstPhoto mediaFile.canonicalName = some photo)
    (h : now - photo.UpdatedAt ≤ tenMinutes) : indexPhoto i now db mediaFile = (db, photo) := by
  unfold indexPhoto
  rw [hq]
  dsimp only
  rw [if_neg (not_lt.2 h)]

theorem indexPhoto_stale (i : Indexer) (now : Int) (db : DB) (mediaFile : MediaFile)
    (photo : Photo) (hq : db.firstPhoto mediaFile.canonicalName = some photo)
    (h : tenMinutes < now - photo.UpdatedAt) :
    indexPhoto i now db mediaFile = refreshPhoto now db photo mediaFile := by
  unfold indexPhoto
  rw [hq]
  dsimp only
  rw [if_pos h]

theorem indexPhoto_new (i : Indexer) (now : Int) (db : DB) (mediaFile : MediaFile)
    (hq : db.firstPhoto mediaFile.canonicalName = none) :
    indexPhoto i now db mediaFile = newPhoto i now db mediaFile := by
  unfold indexPhoto
  rw [hq]

/-- C8: when the canonical name of the media file has a Photo, `indexMediaFile` called at
most ten minutes after the Photo's last update (for instance 5 minutes, or exactly 10)
leaves the photos table and the tags of the photos as they were, so no field of the Photo,
the update timestamp included, changes; called more than ten minutes after it (for instance
15 minutes) it stores the refreshed Photo, stamped with the time of the call, over the
Photo's row, with focal length and aperture read anew when the JPEG is available. -/
theorem indexMediaFile_staleness (i : Indexer) (now : Int) (db : DB) (mediaFile : MediaFile)
    (photo : Photo) (hq : db.firstPhoto mediaFile.canonicalName = some photo) :
    (now - photo.UpdatedAt ≤ tenMinutes →
      (indexMediaFile i now db mediaFile).1.photos = db.photos ∧
      (indexMediaFile i now db mediaFile).1.photoTags = db.photoTags) ∧
    (now - photo.UpdatedAt = minutes 5 ∨ now - photo.UpdatedAt = minutes 10 →
      (indexMediaFile i now db mediaFile).1.photos = db.photos) ∧
    (tenMinutes < now - photo.UpdatedAt →
      (indexMediaFile i now db mediaFile).1.photos =
        db.photos.map (fun p =>
          if p.ID = photo.ID then (refreshPhoto now db photo mediaFile).2 else p) ∧
      (refreshPhoto now db photo mediaFile).2 ∈ (indexMediaFile i now db mediaFile).1.photos ∧
      (refreshPhoto now db photo mediaFile).2.UpdatedAt = now ∧
      (∀ jpeg, mediaFile.jpeg = some jpeg →
        (refreshPhoto now db photo mediaFile).2.PhotoFocalLength = mediaFile.focalLength ∧
        (refreshPhoto now db photo mediaFile).2.PhotoAperture = mediaFile.aperture)) ∧
    (now - photo.UpdatedAt = minutes 15 →
      (refreshPhoto now db photo mediaFile).2 ∈ (indexMediaFile i now db mediaFile).1.photos ∧
      (refreshPhoto now db photo mediaFile).2.UpdatedAt = now) := by
  have fresh : now - photo.UpdatedAt ≤ tenMinutes →
      (indexMediaFile i now db mediaFile).1.photos = db.photos ∧
      (indexMediaFile i now db mediaFile).1.photoTags = db.photoTags := by
    intro h
    have e := indexPhoto_fresh i now db mediaFile photo hq h
    refine ⟨?_, ?_⟩
    · rw [indexMediaFile_photos, e]
    · show (indexFile now (indexPhoto i now db mediaFile).1 (indexPhoto i now db mediaFile).2
        mediaFile).1.photoTags = _
      rw [indexFile_photoTags, e]
  have stale : tenMinutes < now - photo.UpdatedAt →
      (indexMediaFile i now db mediaFile).1.photos =
        db.photos.map (fun p =>
          if p.ID = photo.ID then (refreshPhoto now db photo mediaFile).2 else p) ∧
      (refreshPhoto now db photo mediaFile).2 ∈ (indexMediaFile i now db mediaFile).1.photos ∧
      (refreshPhoto now db photo mediaFile).2.UpdatedAt = now ∧
      (∀ jpeg, mediaFile.jpeg = some jpeg →
        (refreshPhoto now db photo mediaFile).2.PhotoFocalLength = mediaFile.focalLength ∧
        (refreshPhoto now db photo mediaFile).2.PhotoAperture = mediaFile.aperture) := by
    intro h
    have e := indexPhoto_stale i now db mediaFile photo hq h
    have s := refreshPhoto_spec now db photo mediaFile
    have hp : (indexMediaFile i now db mediaFile).1.photos =
        db.photos.map (fun p =>
          if p.ID = photo.ID then (refreshPhoto now db photo mediaFile).2 else p) := by
      rw [indexMediaFile_photos, e, s.1]
    refine ⟨hp, ?_, s.2.2.2.2.2.1, ?_⟩
    · rw [hp, List.mem_map]
      exact ⟨photo, (firstPhoto_mem hq).1, by simp⟩
    · intro jpeg hj
      have a := refreshJpeg_focal db photo mediaFile jpeg hj
      have b := refreshCountry_focal (refreshJpeg db photo mediaFile).1
        (refreshJpeg db photo mediaFile).2
      exact ⟨b.1.trans a.1, b.2.trans a.2⟩
  refine ⟨fresh, ?_, stale, ?_⟩
  · intro h
    refine (fresh ?_).1
    rcases h with h | h <;> rw [h] <;> decide
  · intro h
    have : tenMinutes < now - photo.UpdatedAt := by rw [h]; decide
    exact ⟨(stale this).2.1, (stale this).2.2.1⟩

/-- Witness of C8 on the sample catalog: `a.jpg` indexed again after 5 minutes leaves the
Photo alone, and after 15 minutes the Photo carries the time of the call. -/
theorem indexMediaFile_staleness_witness :
    sampleDB.firstPhoto "a" = some samplePhoto ∧
    (indexMediaFile sampleIndexer (minutes 5) sampleDB
      (sampleFile "a.jpg" "a" "h1" "jpg")).1.photos = sampleDB.photos ∧
    (refreshPhoto (minutes 15) sampleDB samplePhoto
      (sampleFile "a.jpg" "a" "h1" "jpg")).2.UpdatedAt = minutes 15 :=
  ⟨by decide,
   ((indexMediaFile_staleness sampleIndexer (minutes 5) sampleDB
      (sampleFile "a.jpg" "a" "h1" "jpg") samplePhoto (by decide)).1 (by decide)).1,
   ((indexMediaFile_staleness sampleIndexer (minutes 15) sampleDB
      (sampleFile "a.jpg" "a" "h1" "jpg") samplePhoto (by decide)).2.2.2 (by decide)).2⟩

/-! ### Counting rows -/

theorem countP_eq_zero_of_find {α : Type} (p : α → Bool) (l : List α)
    (h : l.find? p = none) : l.countP p = 0 := by
  rw [List.countP_eq_zero]
  intro a ha
  have := List.find?_eq_none.1 h a ha
  simpa using this

theorem countP_pos_of_find {α : Type} (p : α → Bool) (l : List α) (a : α)
    (h : l.find? p = some a) : 0 < l.countP p :=
  List.countP_pos_iff.2 ⟨a, List.mem_of_find?_eq_some h, List.find?_some h⟩

theorem find_of_countP_pos {α : Type} (p : α → Bool) (l : List α) (h : 0 < l.countP p) :
    ∃ a, l.find? p = some a := by
  cases hq : l.find? p with
  | none => rw [countP_eq_zero_of_find p l hq] at h; exact absurd h (Nat.lt_irrefl 0)
  | some a => exact ⟨a, rfl⟩

theorem countP_replace {α : Type} (p : α → Bool) (l : List α) (g : α → α)
    (h : ∀ a ∈ l, p (g a) = p a) : (l.map g).countP p = l.countP p := by
  rw [List.countP_map]
  apply List.countP_congr
  intro a ha
  show p (g a) = true ↔ p a = true
  rw [h a ha]

theorem indexPhoto_photoCount (i : Indexer) (now : Int) (db : DB) (mediaFile : MediaFile)
    (h : db.WF) (hc : db.photoCount mediaFile.canonicalName ≤ 1) :
    (indexPhoto i now db mediaFile).1.photoCount mediaFile.canonicalName = 1 := by
  cases hq : db.firstPhoto mediaFile.canonicalName with
  | none =>
    rw [indexPhoto_new i now db mediaFile hq]
    have s := newPhoto_spec i now db mediaFile
    unfold DB.photoCount
    rw [s.1, List.countP_append, countP_eq_zero_of_find _ _ hq]
    simp [s.2.2.2.2.2.2]
  | some photo =>
    have hpos : 0 < db.photoCount mediaFile.canonicalName := countP_pos_of_find _ _ _ hq
    have hone : db.photoCount mediaFile.canonicalName = 1 := Nat.le_antisymm hc hpos
    by_cases hs : tenMinutes < now - photo.UpdatedAt
    · rw [indexPhoto_stale i now db mediaFile photo hq hs]
      have s := refreshPhoto_spec now db photo mediaFile
      have hm := firstPhoto_mem hq
      unfold DB.photoCount
      rw [s.1, countP_replace]
      · exact hone
      · intro p hp
        show decide ((if p.ID = photo.ID then _ else p).PhotoCanonicalName = _) = _
        split
        · rename_i hid
          rw [s.2.2.2.2.2.2, photo_eq_of_ID h hp hm.1 hid]
        · rfl
    · rw [indexPhoto_fresh i now db mediaFile photo hq (not_lt.1 hs)]
      exact hone

theorem indexFile_fileCount (now : Int) (db : DB) (photo : Photo) (mediaFile : MediaFile)
    (h : db.WF) (hc : db.fileCount mediaFile.hash mediaFile.relativeFilename ≤ 1) :
    (indexFile now db photo mediaFile).1.fileCount mediaFile.hash mediaFile.relativeFilename
      = 1 := by
  obtain ⟨f, _, _, hname, hhash, _, _, _, hid, _, hfiles⟩ :=
    indexFile_files now db photo mediaFile
  unfold DB.fileCount
  rw [hfiles]
  cases hq : db.firstFile mediaFile.hash mediaFile.relativeFilename with
  | none =>
    simp only []
    rw [List.countP_append, countP_eq_zero_of_find _ _ hq]
    simp [hhash]
  | some old =>
    rw [hq] at hid
    have hpos : 0 < db.fileCount mediaFile.hash mediaFile.relativeFilename :=
      countP_pos_of_find _ _ _ hq
    have hm := firstFile_mem hq
    simp only []
    rw [countP_replace]
    · exact Nat.le_antisymm hc hpos
    · intro g hg
      show decide ((if g.ID = old.ID then f else g).FileHash = _ ∨
        (if g.ID = old.ID then f else g).FileName = _) = _
      split
      · rename_i hgid
        rw [file_eq_of_ID h hg hm.1 hgid]
        simp [hhash, hm.2]
      · rfl

theorem indexFile_updated (now : Int) (db : DB) (photo : Photo) (mediaFile : MediaFile)
    (hc : 0 < db.fileCount mediaFile.hash mediaFile.relativeFilename) :
    (indexFile now db photo mediaFile).2 = indexResultUpdated := by
  obtain ⟨old, hq⟩ := find_of_countP_pos _ _ hc
  unfold indexFile
  dsimp only
  rw [show db.firstFile mediaFile.hash mediaFile.relativeFilename = some old from hq]

/-- C1 as stated fails: the Photo of `a.jpg` was last updated at minute 0; `indexMediaFile`
is called on `a.jpg` at minute 9 and again at minute 14, five minutes after the first
call. The first call leaves the Photo alone (update timestamp 0), the second one, fourteen
minutes after the Photo's last update, saves it again with the timestamp of minute 14.
Moreover a catalog that holds two File rows for the hash or path of the file
(`twoPhotosDB` for `overwrittenFile`), or two Photos of its canonical name (`duplicateDB`),
still holds two after both calls. -/
theorem indexMediaFile_twice_refreshes :
    sampleDB.WF ∧ sampleDB.uniqueNames ∧ minutes 14 - minutes 9 ≤ tenMinutes ∧
    (indexMediaFile sampleIndexer (minutes 9) sampleDB
      (sampleFile "a.jpg" "a" "h1" "jpg")).1.photos.map (·.UpdatedAt) = [0] ∧
    (indexMediaFile sampleIndexer (minutes 14)
      (indexMediaFile sampleIndexer (minutes 9) sampleDB
        (sampleFile "a.jpg" "a" "h1" "jpg")).1
      (sampleFile "a.jpg" "a" "h1" "jpg")).1.photos.map (·.UpdatedAt) = [minutes 14] ∧
    (indexMediaFile sampleIndexer (minutes 14)
      (indexMediaFile sampleIndexer (minutes 9) sampleDB
        (sampleFile "a.jpg" "a" "h1" "jpg")).1
      (sampleFile "a.jpg" "a" "h1" "jpg")).1.photos ≠
    (indexMediaFile sampleIndexer (minutes 9) sampleDB
      (sampleFile "a.jpg" "a" "h1" "jpg")).1.photos ∧
    (indexMediaFile sampleIndexer (minutes 3)
      (indexMediaFile sampleIndexer (minutes 2) twoPhotosDB overwrittenFile).1
      overwrittenFile).1.fileCount overwrittenFile.hash overwrittenFile.relativeFilename = 2 ∧
    (indexMediaFile sampleIndexer (minutes 3)
      (indexMediaFile sampleIndexer (minutes 2) duplicateDB
        (sampleFile "a.jpg" "a" "h1" "jpg")).1
      (sampleFile "a.jpg" "a" "h1" "jpg")).1.photoCount "a" = 2 := by
  decide

/-- C1, amended: on a catalog with proper primary keys, at most one Photo of the file's
canonical name and at most one File row with the file's hash or path, `indexMediaFile`
run twice on the same file, the second call at most ten minutes after the update timestamp
the first call left on the Photo, leaves exactly one Photo of that canonical name and
exactly one File row for that hash or path (after the first call and after the second);
the second call returns `Updated` and leaves the photos table as the first call left it. -/
theorem indexMediaFile_idempotent (i : Indexer) (now1 now2 : Int) (db : DB)
    (mediaFile : MediaFile) (h : db.WF)
    (hp : db.photoCount mediaFile.canonicalName ≤ 1)
    (hf : db.fileCount mediaFile.hash mediaFile.relativeFilename ≤ 1)
    (hw : ∀ p ∈ (indexMediaFile i now1 db mediaFile).1.photos,
      p.PhotoCanonicalName = mediaFile.canonicalName → now2 - p.UpdatedAt ≤ tenMinutes) :
    (indexMediaFile i now1 db mediaFile).1.photoCount mediaFile.canonicalName = 1 ∧
    (indexMediaFile i now1 db mediaFile).1.fileCount mediaFile.hash
      mediaFile.relativeFilename = 1 ∧
    (indexMediaFile i now2 (indexMediaFile i now1 db mediaFile).1 mediaFile).1.photoCount
      mediaFile.canonicalName = 1 ∧
    (indexMediaFile i now2 (indexMediaFile i now1 db mediaFile).1 mediaFile).1.fileCount
      mediaFile.hash mediaFile.relativeFilename = 1 ∧
    (indexMediaFile i now2 (indexMediaFile i now1 db mediaFile).1 mediaFile).2
      = indexResultUpdated ∧
    (indexMediaFile i now2 (indexMediaFile i now1 db mediaFile).1 mediaFile).1.photos
      = (indexMediaFile i now1 db mediaFile).1.photos := by
  have one_step : ∀ (now : Int) (d : DB), d.WF → d.photoCount mediaFile.canonicalName ≤ 1 →
      d.fileCount mediaFile.hash mediaFile.relativeFilename ≤ 1 →
      (indexMediaFile i now d mediaFile).1.photoCount mediaFile.canonicalName = 1 ∧
      (indexMediaFile i now d mediaFile).1.fileCount mediaFile.hash
        mediaFile.relativeFilename = 1 := by
    intro now d hd hdp hdf
    refine ⟨?_, ?_⟩
    · have e := indexPhoto_photoCount i now d mediaFile hd hdp
      unfold DB.photoCount at e ⊢
      rw [indexMediaFile_photos]
      exact e
    · apply indexFile_fileCount now _ _ mediaFile (indexPhoto_WF i now d mediaFile hd)
      unfold DB.fileCount
      rw [(indexPhoto_files i now d mediaFile).1]
      exact hdf
  have h1 := one_step now1 db h hp hf
  have hwf1 := indexMediaFile_WF i now1 db mediaFile h
  have h2 := one_step now2 _ hwf1 (Nat.le_of_eq h1.1) (Nat.le_of_eq h1.2)
  refine ⟨h1.1, h1.2, h2.1, h2.2, ?_, ?_⟩
  · apply indexFile_updated
    unfold DB.fileCount
    rw [(indexPhoto_files i now2 _ mediaFile).1]
    have := h1.2
    unfold DB.fileCount at this
    rw [this]
    exact Nat.one_pos
  · obtain ⟨p, hq⟩ := find_of_countP_pos _ _
      (show 0 < (indexMediaFile i now1 db mediaFile).1.photoCount mediaFile.canonicalName by
        rw [h1.1]; exact Nat.one_pos)
    have hm := firstPhoto_mem hq
    rw [indexMediaFile_photos,
      indexPhoto_fresh i now2 _ mediaFile p hq (hw p hm.1 hm.2)]

/-- Witness of the amended C1: `a.jpg` indexed into the empty catalog at minute 0 and
again at minute 10. -/
theorem indexMediaFile_idempotent_witness :
    (indexMediaFile sampleIndexer (minutes 10)
      (indexMediaFile sampleIndexer 0 DB.empty (sampleFile "a.jpg" "a" "h1" "jpg")).1
      (sampleFile "a.jpg" "a" "h1" "jpg")).2 = indexResultUpdated ∧
    (indexMediaFile sampleIndexer (minutes 10)
      (indexMediaFile sampleIndexer 0 DB.empty (sampleFile "a.jpg" "a" "h1" "jpg")).1
      (sampleFile "a.jpg" "a" "h1" "jpg")).1.photos =
    (indexMediaFile sampleIndexer 0 DB.empty (sampleFile "a.jpg" "a" "h1" "jpg")).1.photos :=
  (indexMediaFile_idempotent sampleIndexer 0 (minutes 10) DB.empty
    (sampleFile "a.jpg" "a" "h1" "jpg") (by decide) (by decide) (by decide)
    (by decide)).2.2.2.2

/-! ### Groups -/

theorem unseen_nil (seen : List String) : unseen seen [] = [] := rfl

theorem unseen_cons (seen : List String) (m : MediaFile) (l : List MediaFile) :
    unseen seen (m :: l) =
      (if m.filename ∈ seen then [] else [m]) ++ unseen (seen ++ [m.filename]) l := by
  unfold unseen
  rw [List.length_cons, List.range_succ_eq_map, List.filterMap_cons, List.filterMap_map]
  have h0 : ((m :: l)[0]?).bind (fun m' =>
      if m'.filename ∈ seen ++ ((m :: l).take 0).map (·.filename) then none else some m') =
      if m.filename ∈ seen then none else some m := by
    simp
  rw [h0]
  have hs : ∀ k, (((m :: l)[k + 1]?).bind (fun m' =>
      if m'.filename ∈ seen ++ ((m :: l).take (k + 1)).map (·.filename) then none
      else some m')) =
      ((l[k]?).bind (fun m' =>
        if m'.filename ∈ (seen ++ [m.filename]) ++ (l.take k).map (·.filename) then none
        else some m')) := by
    intro k
    simp
  have hf : ((fun k => ((m :: l)[k]?).bind (fun m' =>
      if m'.filename ∈ seen ++ ((m :: l).take k).map (·.filename) then none
      else some m')) ∘ Nat.succ) =
      (fun k => (l[k]?).bind (fun m' =>
        if m'.filename ∈ (seen ++ [m.filename]) ++ (l.take k).map (·.filename) then none
        else some m')) := by
    funext k
    exact hs k
  rw [hf]
  by_cases h : m.filename ∈ seen <;> simp [h]

theorem unseen_congr (s1 s2 : List String) (h : ∀ x, x ∈ s1 ↔ x ∈ s2) (l : List MediaFile) :
    unseen s1 l = unseen s2 l := by
  induction l generalizing s1 s2 with
  | nil => rfl
  | cons m l ih =>
    rw [unseen_cons, unseen_cons, ih (s1 ++ [m.filename]) (s2 ++ [m.filename])
      (by intro x; simp [h x])]
    by_cases hm : m.filename ∈ s1
    · rw [if_pos hm, if_pos ((h _).1 hm)]
    · rw [if_neg hm, if_neg (fun c => hm ((h _).2 c))]

theorem mem_snoc (s : List String) (k x : String) : x ∈ s ++ [k] ↔ x ∈ s ∨ x = k := by
  simp

theorem unseen_spec (seen : List String) (l : List MediaFile) :
    ((unseen seen l).map (·.filename)).Nodup ∧
      (∀ x, x ∈ (unseen seen l).map (·.filename) ↔ x ∈ l.map (·.filename) ∧ x ∉ seen) ∧
      (unseen seen l).Sublist l := by
  induction l generalizing seen with
  | nil => simp [unseen_nil]
  | cons m l ih =>
    obtain ⟨h1, h2, h3⟩ := ih (seen ++ [m.filename])
    rw [unseen_cons]
    by_cases hm : m.filename ∈ seen
    · rw [if_pos hm, List.nil_append]
      refine ⟨h1, ?_, h3.cons _⟩
      intro x
      rw [h2, mem_snoc, List.map_cons, List.mem_cons, not_or]
      constructor
      · rintro ⟨a, b, _⟩; exact ⟨Or.inr a, b⟩
      · rintro ⟨a | a, b⟩
        · exact absurd (by rw [a]; exact hm) b
        · exact ⟨a, b, fun (c : x = m.filename) => b (by rw [c]; exact hm)⟩
    · rw [if_neg hm, List.singleton_append]
      refine ⟨?_, ?_, h3.cons₂ _⟩
      · rw [List.map_cons, List.nodup_cons]
        refine ⟨?_, h1⟩
        intro c
        have := ((h2 _).1 c).2
        rw [mem_snoc, not_or] at this
        exact this.2 rfl
      · intro x
        rw [List.map_cons, List.mem_cons, h2, mem_snoc, List.map_cons, List.mem_cons, not_or]
        constructor
        · rintro (a | ⟨a, b, _⟩)
          · exact ⟨Or.inl a, by rw [a]; exact hm⟩
          · exact ⟨Or.inr a, b⟩
        · rintro ⟨a | a, b⟩
          · exact Or.inl a
          · by_cases hx : x = m.filename
            · exact Or.inl hx
            · exact Or.inr ⟨a, b, hx⟩

theorem indexCalls_append (a b : List Event) :
    indexCalls (a ++ b) = indexCalls a ++ indexCalls b := by
  induction a with
  | nil => rfl
  | cons e a ih =>
    cases e with
    | seed p m => simpa [indexCalls] using ih
    | index m => simpa [indexCalls] using ih

theorem mem_mapSet (s : List String) (k x : String) : x ∈ mapSet s k ↔ x ∈ s ∨ x = k := by
  unfold mapSet
  split
  · rename_i h
    constructor
    · exact Or.inl
    · rintro (a | a)
      · exact a
      · exact a ▸ h
  · simp

theorem relatedStep_skip (i : Indexer) (w : Run) (s : List String) (m : MediaFile)
    (h : m.filename ∈ s) : relatedStep i (w, s) m = (w, s) := by
  simp [relatedStep, h]

theorem relatedStep_index (i : Indexer) (w : Run) (s : List String) (m : MediaFile)
    (h : m.filename ∉ s) :
    relatedStep i (w, s) m = ((w.index i m).1, mapSet s m.filename) := by
  simp [relatedStep, h]

theorem relatedLoop_spec (i : Indexer) (l : List MediaFile) (w : Run) (s : List String) :
    indexCalls (l.foldl (relatedStep i) (w, s)).1.events =
        indexCalls w.events ++ unseen s l ∧
      (∀ x, x ∈ (l.foldl (relatedStep i) (w, s)).2 ↔ x ∈ s ∨ x ∈ l.map (·.filename)) ∧
      (∃ es, (l.foldl (relatedStep i) (w, s)).1.events = w.events ++ es ∧
        ∀ e ∈ es, ∃ m, e = Event.index m) := by
  induction l generalizing w s with
  | nil => exact ⟨by simp [unseen_nil], by simp, [], by simp, by simp⟩
  | cons m l ih =>
    rw [List.foldl_cons, unseen_cons]
    by_cases hm : m.filename ∈ s
    · rw [relatedStep_skip i w s m hm, if_pos hm, List.nil_append]
      obtain ⟨h1, h2, h3⟩ := ih w s
      refine ⟨?_, ?_, h3⟩
      · rw [h1]
        congr 1
        apply unseen_congr
        intro x
        rw [mem_snoc]
        constructor
        · exact Or.inl
        · rintro (a | a)
          · exact a
          · rw [a]; exact hm
      · intro x
        rw [h2, List.map_cons, List.mem_cons]
        constructor
        · rintro (a | a)
          · exact Or.inl a
          · exact Or.inr (Or.inr a)
        · rintro (a | a | a)
          · exact Or.inl a
          · exact Or.inl (by rw [a]; exact hm)
          · exact Or.inr a
    · rw [relatedStep_index i w s m hm, if_neg hm]
      obtain ⟨h1, h2, es, h3, h4⟩ := ih (w.index i m).1 (mapSet s m.filename)
      refine ⟨?_, ?_, Event.index m :: es, ?_, ?_⟩
      · rw [h1]
        show indexCalls (w.events ++ [Event.index m]) ++ _ = _
        rw [indexCalls_append]
        simp only [indexCalls, List.append_assoc, List.singleton_append]
        congr 2
        apply unseen_congr
        intro x
        rw [mem_mapSet, mem_snoc]
      · intro x
        rw [h2, mem_mapSet, List.map_cons, List.mem_cons]
        exact or_assoc
      · rw [h3]
        show (w.events ++ [Event.index m]) ++ es = _
        simp
      · intro e he
        rcases List.mem_cons.1 he with h | h
        · exact ⟨m, h⟩
        · exact h4 e h

theorem IndexRelated_spec (i : Indexer) (w : Run) (path : String) (mediaFile : MediaFile)
    (relatedFiles : List MediaFile) (mainFile : MediaFile)
    (h : i.relatedFiles mediaFile = some (relatedFiles, mainFile)) :
    indexCalls (IndexRelated i w path mediaFile).1.events =
        indexCalls w.events ++ mainFile :: unseen [mainFile.filename] relatedFiles ∧
      (∀ x, x ∈ (IndexRelated i w path mediaFile).2 ↔
        x = mainFile.filename ∨ x ∈ relatedFiles.map (·.filename)) ∧
      (∃ es, (IndexRelated i w path mediaFile).1.events =
          w.events ++ Event.seed path mediaFile :: es ∧
        ∀ e ∈ es, ∃ m, e = Event.index m) := by
  unfold IndexRelated
  dsimp only
  rw [h]
  dsimp only
  obtain ⟨h1, h2, es, h3, h4⟩ := relatedLoop_spec i relatedFiles
    (Run.index i ⟨w.db, w.events ++ [Event.seed path mediaFile]⟩ mainFile).1
    (mapSet [] mainFile.filename)
  refine ⟨?_, ?_, Event.index mainFile :: es, ?_, ?_⟩
  · rw [h1]
    show indexCalls ((w.events ++ [Event.seed path mediaFile]) ++ [Event.index mainFile]) ++ _
      = _
    rw [indexCalls_append, indexCalls_append]
    simp only [indexCalls, List.append_nil, List.append_assoc, List.singleton_append,
      List.nil_append]
    rfl
  · intro x
    rw [h2, mem_mapSet]
    simp
  · rw [h3]
    show ((w.events ++ [Event.seed path mediaFile]) ++ [Event.index mainFile]) ++ es = _
    simp
  · intro e he
    rcases List.mem_cons.1 he with a | a
    · exact ⟨mainFile, a⟩
    · exact h4 e a

theorem IndexRelated_failed (i : Indexer) (w : Run) (path : String) (mediaFile : MediaFile)
    (h : i.relatedFiles mediaFile = none) :
    IndexRelated i w path mediaFile =
      (⟨w.db, w.events ++ [Event.seed path mediaFile]⟩, []) := by
  unfold IndexRelated
  dsimp only
  rw [h]

/-- C6: when the sibling resolution of the seed yields the main file `mainFile` and the
related files `relatedFiles`, `IndexRelated` calls `indexMediaFile` on `mainFile` first and
then on the related files, in order, whose filename is neither that of `mainFile` nor that
of an earlier related file; no filename is reconciled twice, every related file's filename
is reconciled, and the set it returns holds exactly the filenames of `mainFile` and of the
related files. -/
theorem IndexRelated_group (i : Indexer) (w : Run) (path : String) (mediaFile : MediaFile)
    (relatedFiles : List MediaFile) (mainFile : MediaFile)
    (h : i.relatedFiles mediaFile = some (relatedFiles, mainFile)) :
    indexCalls (IndexRelated i w path mediaFile).1.events =
        indexCalls w.events ++ mainFile :: unseen [mainFile.filename] relatedFiles ∧
      ((mainFile :: unseen [mainFile.filename] relatedFiles).map (·.filename)).Nodup ∧
      (unseen [mainFile.filename] relatedFiles).Sublist relatedFiles ∧
      (∀ m ∈ relatedFiles, m.filename ∈
        (mainFile :: unseen [mainFile.filename] relatedFiles).map (·.filename)) ∧
      (∀ x, x ∈ (IndexRelated i w path mediaFile).2 ↔
        x = mainFile.filename ∨ ∃ m ∈ relatedFiles, m.filename = x) := by
  obtain ⟨h1, h2, _⟩ := IndexRelated_spec i w path mediaFile relatedFiles mainFile h
  obtain ⟨u1, u2, u3⟩ := unseen_spec [mainFile.filename] relatedFiles
  refine ⟨h1, ?_, u3, ?_, ?_⟩
  · rw [List.map_cons, List.nodup_cons]
    refine ⟨?_, u1⟩
    intro c
    exact ((u2 _).1 c).2 (List.mem_singleton.2 rfl)
  · intro m hm
    rw [List.map_cons, List.mem_cons]
    by_cases e : m.filename = mainFile.filename
    · exact Or.inl e
    · exact Or.inr ((u2 _).2 ⟨List.mem_map.2 ⟨m, hm, rfl⟩, by simpa using e⟩)
  · intro x
    rw [h2, List.mem_map]

/-- Witness of C6: main file `a.raw`, related files `a.jpg` and `a.xmp`; the three are
reconciled in that order and the returned set holds their three filenames. -/
theorem IndexRelated_group_witness :
    groupIndexer.relatedFiles (sampleFile "a.jpg" "a" "h1" "jpg") =
      some ([sampleFile "a.jpg" "a" "h1" "jpg", sampleFile "a.xmp" "a" "h3" "xmp"],
        sampleFile "a.raw" "a" "h2" "raw") ∧
    indexCalls (IndexRelated groupIndexer ⟨DB.empty, []⟩ "/originals/a.jpg"
      (sampleFile "a.jpg" "a" "h1" "jpg")).1.events =
      [sampleFile "a.raw" "a" "h2" "raw", sampleFile "a.jpg" "a" "h1" "jpg",
        sampleFile "a.xmp" "a" "h3" "xmp"] ∧
    (IndexRelated groupIndexer ⟨DB.empty, []⟩ "/originals/a.jpg"
      (sampleFile "a.jpg" "a" "h1" "jpg")).2 =
      ["/originals/a.raw", "/originals/a.jpg", "/originals/a.xmp"] :=
  ⟨rfl,
   (IndexRelated_group groupIndexer ⟨DB.empty, []⟩ "/originals/a.jpg"
      (sampleFile "a.jpg" "a" "h1" "jpg") _ _ rfl).1.trans (by decide),
   by decide⟩

/-! ### The run-scoped set -/

theorem mem_foldl_mapSet (l s : List String) (x : String) :
    x ∈ l.foldl mapSet s ↔ x ∈ s ∨ x ∈ l := by
  induction l generalizing s with
  | nil => simp
  | cons k l ih =>
    rw [List.foldl_cons, ih, mem_mapSet, List.mem_cons, or_assoc]

theorem IndexRelated_effect (i : Indexer) (w : Run) (path : String) (mediaFile : MediaFile) :
    ∃ es cs, (IndexRelated i w path mediaFile).1.events =
        w.events ++ Event.seed path mediaFile :: es ∧
      (∀ e ∈ es, ∃ m, e = Event.index m) ∧
      indexCalls (IndexRelated i w path mediaFile).1.events = indexCalls w.events ++ cs ∧
      (cs.map (·.filename)).Nodup ∧
      (∀ x, x ∈ (IndexRelated i w path mediaFile).2 ↔ x ∈ cs.map (·.filename)) ∧
      (∀ x, x ∈ (IndexRelated i w path mediaFile).2 ↔ x ∈ groupNames i mediaFile) := by
  cases h : i.relatedFiles mediaFile with
  | none =>
    rw [IndexRelated_failed i w path mediaFile h]
    refine ⟨[], [], rfl, by simp, ?_, by simp, by simp, ?_⟩
    · show indexCalls (w.events ++ [Event.seed path mediaFile]) = _
      rw [indexCalls_append]
      rfl
    · intro x
      simp [groupNames, h]
  | some r =>
    obtain ⟨relatedFiles, mainFile⟩ := r
    obtain ⟨h1, h2, es, h3, h4⟩ := IndexRelated_spec i w path mediaFile relatedFiles mainFile h
    obtain ⟨u1, u2, _⟩ := unseen_spec [mainFile.filename] relatedFiles
    refine ⟨es, mainFile :: unseen [mainFile.filename] relatedFiles, h3, h4, h1, ?_, ?_, ?_⟩
    · rw [List.map_cons, List.nodup_cons]
      exact ⟨fun c => ((u2 _).1 c).2 (List.mem_singleton.2 rfl), u1⟩
    · intro x
      rw [h2, List.map_cons, List.mem_cons, u2, List.mem_singleton]
      constructor
      · rintro (a | a)
        · exact Or.inl a
        · by_cases e : x = mainFile.filename
          · exact Or.inl e
          · exact Or.inr ⟨a, e⟩
      · rintro (a | a)
        · exact Or.inl a
        · exact Or.inr a.1
    · intro x
      rw [h2]
      simp [groupNames, h]

theorem walkStep_cases (i : Indexer) (acc : Run × List String) (e : WalkEntry) :
    walkStep i acc e = acc ∨
      (e.filename ∉ acc.2 ∧ ∃ m, i.newMediaFile e.filename = some m ∧
        walkStep i acc e = ((IndexRelated i acc.1 e.filename m).1,
          (IndexRelated i acc.1 e.filename m).2.foldl mapSet acc.2)) := by
  unfold walkStep
  split
  · exact Or.inl rfl
  · rename_i h1
    split
    · exact Or.inl rfl
    · split
      · exact Or.inl rfl
      · rename_i m hm
        split
        · exact Or.inl rfl
        · exact Or.inr ⟨fun c => h1 (Or.inr c), m, hm, rfl⟩

theorem seeds_append (a ext : List Event)
    (ha : ∀ pre p m post, a = pre ++ Event.seed p m :: post →
      p ∉ (indexCalls pre).map (·.filename))
    (hext : ∀ pre p m post, ext = pre ++ Event.seed p m :: post →
      p ∉ (indexCalls (a ++ pre)).map (·.filename)) :
    ∀ pre p m post, a ++ ext = pre ++ Event.seed p m :: post →
      p ∉ (indexCalls pre).map (·.filename) := by
  intro pre p m post h
  rcases List.append_eq_append_iff.1 h with ⟨a', h1, h2⟩ | ⟨c', h1, h2⟩
  · rw [h1]
    exact hext a' p m post h2
  · cases c' with
    | nil =>
      rw [List.append_nil] at h1
      rw [List.nil_append] at h2
      have := hext [] p m post h2.symm
      rw [List.append_nil, h1] at this
      exact this
    | cons c c'' =>
      rw [List.cons_append] at h2
      injection h2 with h3 _
      rw [← h3] at h1
      exact ha pre p m c'' h1

theorem seeds_group (a es : List Event) (path : String) (mediaFile : MediaFile)
    (hes : ∀ e ∈ es, ∃ m, e = Event.index m)
    (hp : path ∉ (indexCalls a).map (·.filename)) :
    ∀ pre p m post, Event.seed path mediaFile :: es = pre ++ Event.seed p m :: post →
      p ∉ (indexCalls (a ++ pre)).map (·.filename) := by
  intro pre p m post h
  cases pre with
  | nil =>
    rw [List.nil_append] at h
    injection h with h1 _
    injection h1 with h2 _
    rw [List.append_nil, ← h2]
    exact hp
  | cons c pre' =>
    rw [List.cons_append] at h
    injection h with _ h2
    obtain ⟨m', hm'⟩ := hes (Event.seed p m) (by rw [h2]; simp)
    cases hm'

theorem walk_seeds (i : Indexer) (l : List WalkEntry) (acc : Run × List String)
    (h2 : ∀ x, x ∈ acc.2 ↔ x ∈ (indexCalls acc.1.events).map (·.filename))
    (h4 : ∀ pre p m post, acc.1.events = pre ++ Event.seed p m :: post →
      p ∉ (indexCalls pre).map (·.filename)) :
    (∀ x, x ∈ (l.foldl (walkStep i) acc).2 ↔
      x ∈ (indexCalls (l.foldl (walkStep i) acc).1.events).map (·.filename)) ∧
    (∀ pre p m post, (l.foldl (walkStep i) acc).1.events = pre ++ Event.seed p m :: post →
      p ∉ (indexCalls pre).map (·.filename)) := by
  induction l generalizing acc with
  | nil => exact ⟨h2, h4⟩
  | cons e l ih =>
    rw [List.foldl_cons]
    rcases walkStep_cases i acc e with h | ⟨hn, m, _, h⟩
    · rw [h]
      exact ih acc h2 h4
    · obtain ⟨es, cs, e1, e2, e3, _, e5, _⟩ := IndexRelated_effect i acc.1 e.filename m
      apply ih
      · intro x
        rw [h]
        show x ∈ List.foldl mapSet acc.2 _ ↔ x ∈ (indexCalls _).map _
        rw [mem_foldl_mapSet, e3, List.map_append, List.mem_append, h2, e5]
      · rw [h]
        show ∀ pre p m' post, (IndexRelated i acc.1 e.filename m).1.events = _ → _
        rw [e1]
        exact seeds_append _ _ h4
          (seeds_group _ es e.filename m e2 (fun c => hn ((h2 _).2 c)))

theorem walk_once (i : Indexer) (walk : List WalkEntry) (hg : groupsAgree i walk)
    (l : List WalkEntry) (hl : ∀ e ∈ l, e ∈ walk) (acc : Run × List String)
    (h1 : ((indexCalls acc.1.events).map (·.filename)).Nodup)
    (h2 : ∀ x, x ∈ acc.2 ↔ x ∈ (indexCalls acc.1.events).map (·.filename))
    (h3 : ∀ x ∈ (indexCalls acc.1.events).map (·.filename), ∃ e ∈ walk, ∃ m,
      i.newMediaFile e.filename = some m ∧ x ∈ groupNames i m ∧
        ∀ y ∈ groupNames i m, y ∈ acc.2) :
    ((indexCalls (l.foldl (walkStep i) acc).1.events).map (·.filename)).Nodup := by
  induction l generalizing acc with
  | nil => exact h1
  | cons e l ih =>
    rw [List.foldl_cons]
    have hl' : ∀ e' ∈ l, e' ∈ walk := fun e' he' => hl e' (List.mem_cons_of_mem _ he')
    rcases walkStep_cases i acc e with h | ⟨hn, m, hm, h⟩
    · rw [h]
      exact ih hl' acc h1 h2 h3
    · obtain ⟨es, cs, _, _, e3, e4, e5, e6⟩ := IndexRelated_effect i acc.1 e.filename m
      have hmem : ∀ x, x ∈ (walkStep i acc e).2 ↔ x ∈ acc.2 ∨ x ∈ cs.map (·.filename) := by
        intro x
        rw [h]
        show x ∈ List.foldl mapSet acc.2 _ ↔ _
        rw [mem_foldl_mapSet, e5]
      have hcalls : indexCalls (walkStep i acc e).1.events =
          indexCalls acc.1.events ++ cs := by
        rw [h]
        exact e3
      apply ih hl'
      · rw [hcalls, List.map_append, List.nodup_append]
        refine ⟨h1, e4, ?_⟩
        intro x hx hy
        obtain ⟨e1, he1, m1, hm1, hx1, hsub⟩ := h3 x hx
        have hxg : x ∈ groupNames i m := (e6 x).1 ((e5 x).2 hy)
        have := hg e1 he1 e (hl e (List.mem_cons_self _ _)) m1 hm1 m hm ⟨x, hx1, hxg⟩
        exact hn (hsub _ this)
      · intro x
        rw [hmem, hcalls, List.map_append, List.mem_append, h2]
      · intro x hx
        rw [hcalls, List.map_append, List.mem_append] at hx
        rcases hx with hx | hx
        · obtain ⟨e1, he1, m1, hm1, hx1, hsub⟩ := h3 x hx
          exact ⟨e1, he1, m1, hm1, hx1, fun y hy => (hmem y).2 (Or.inl (hsub y hy))⟩
        · refine ⟨e, hl e (List.mem_cons_self _ _), m, hm, (e6 x).1 ((e5 x).2 hx), ?_⟩
          intro y hy
          exact (hmem y).2 (Or.inr ((e5 y).1 ((e6 y).2 hy)))

/-- C7 as stated fails: the walk visits `a.jpg` and `b.jpg`; the inspector returns for
each of them the seed itself as main file and the sidecar `c.xmp` as related file.
`b.jpg` is not in the processed set when it is walked, and its `IndexRelated` starts from
an empty set of its own, so `c.xmp` is passed to `indexMediaFile` twice in the run. -/
theorem IndexAll_reconciles_twice :
    (indexCalls (IndexAll overlapIndexer ⟨DB.empty, []⟩
      [⟨"/originals/a.jpg", false, false⟩, ⟨"/originals/b.jpg", false, false⟩]).1.events).map
        (·.filename) =
      ["/originals/a.jpg", "/originals/c.xmp", "/originals/b.jpg", "/originals/c.xmp"] ∧
    ¬ ((indexCalls (IndexAll overlapIndexer ⟨DB.empty, []⟩
      [⟨"/originals/a.jpg", false, false⟩, ⟨"/originals/b.jpg", false, false⟩]).1.events).map
        (·.filename)).Nodup := by
  decide

/-- C7, amended: in a run of `IndexAll` over any walk, a seed is never a path that was
already reconciled in the run (the run-scoped set holds exactly the filenames reconciled
so far); within the group of one seed no filename is passed to `indexMediaFile` twice; and
when the groups of the walked paths agree (two seeds whose groups share a file lie in each
other's group) no filename is passed to `indexMediaFile` more than once in the run. -/
theorem IndexAll_skipping (i : Indexer) (db : DB) (walk : List WalkEntry) :
    (∀ pre p m post, (IndexAll i ⟨db, []⟩ walk).1.events = pre ++ Event.seed p m :: post →
      p ∉ (indexCalls pre).map (·.filename)) ∧
    (∀ x, x ∈ (IndexAll i ⟨db, []⟩ walk).2 ↔
      x ∈ (indexCalls (IndexAll i ⟨db, []⟩ walk).1.events).map (·.filename)) ∧
    (∀ (w : Run) (path : String) (mediaFile : MediaFile), ∃ cs,
      indexCalls (IndexRelated i w path mediaFile).1.events = indexCalls w.events ++ cs ∧
      (cs.map (·.filename)).Nodup) ∧
    (groupsAgree i walk →
      ((indexCalls (IndexAll i ⟨db, []⟩ walk).1.events).map (·.filename)).Nodup) := by
  have hs := walk_seeds i walk (⟨db, []⟩, []) (by simp [indexCalls])
    (by intro pre p m post h; simp at h)
  refine ⟨hs.2, hs.1, ?_, ?_⟩
  · intro w path mediaFile
    obtain ⟨_, cs, _, _, e3, e4, _, _⟩ := IndexRelated_effect i w path mediaFile
    exact ⟨cs, e3, e4⟩
  · intro hg
    exact walk_once i walk hg walk (fun _ h => h) (⟨db, []⟩, []) (by simp [indexCalls])
      (by simp [indexCalls]) (by simp [indexCalls])

/-- Witness of the amended C7: the walk visits `a.jpg`, `a.raw` and `a.xmp`, which form
one group; the three files are reconciled once each, from the first seed. -/
theorem IndexAll_skipping_witness :
    groupsAgree groupIndexer [⟨"/originals/a.jpg", false, false⟩,
      ⟨"/originals/a.raw", false, false⟩, ⟨"/originals/a.xmp", false, false⟩] ∧
    ((indexCalls (IndexAll groupIndexer ⟨DB.empty, []⟩ [⟨"/originals/a.jpg", false, false⟩,
      ⟨"/originals/a.raw", false, false⟩,
      ⟨"/originals/a.xmp", false, false⟩]).1.events).map (·.filename)).Nodup :=
  ⟨by decide,
   (IndexAll_skipping groupIndexer DB.empty [⟨"/originals/a.jpg", false, false⟩,
      ⟨"/originals/a.raw", false, false⟩, ⟨"/originals/a.xmp", false, false⟩]).2.2.2
     (by decide)⟩

/-! ### Titles -/

theorem appendTag_sameButTags (i : Indexer) (db : DB) (tags : List Tag) (label : String) :
    db.sameButTags (appendTag i db tags label).1 := by
  unfold appendTag
  split
  · exact ⟨rfl, rfl, rfl⟩
  · dsimp only
    split
    · exact ⟨rfl, rfl, rfl⟩
    · unfold DB.firstOrCreateTag
      split <;> exact ⟨rfl, rfl, rfl⟩

theorem getImageTags_sameButTags (i : Indexer) (db : DB) (jpeg : Jpeg) :
    db.sameButTags (getImageTags i db jpeg).1 := by
  unfold getImageTags
  split
  · exact ⟨rfl, rfl, rfl⟩
  · rename_i tags _
    exact foldl_inv (fun acc : DB × List Tag => db.sameButTags acc.1) _
      (by
        intro a b ha
        split
        · have := appendTag_sameButTags i a.1 a.2 b.Label
          exact ⟨this.1.trans ha.1, this.2.1.trans ha.2.1, this.2.2.trans ha.2.2⟩
        · exact ha) tags (db, []) ⟨rfl, rfl, rfl⟩

theorem draftJpeg_spec (i : Indexer) (db : DB) (mediaFile : MediaFile) :
    (draftJpeg i db mediaFile).photo.PhotoTitle = "" ∧
      (draftJpeg i db mediaFile).country = none ∧
      db.sameButTags (draftJpeg i db mediaFile).db := by
  unfold draftJpeg
  split
  · dsimp only
    refine ⟨?_, rfl, getImageTags_sameButTags i db _⟩
    split <;> rfl
  · exact ⟨rfl, rfl, rfl, rfl, rfl⟩

theorem firstOrCreateLocation_stored (db : DB) (location : Location) :
    (db.firstOrCreateLocation location).2 = db.storedLocation location := by
  unfold DB.firstOrCreateLocation DB.storedLocation
  split <;> rfl

theorem append_sep_ne_empty (a b : String) : a ++ " / " ++ b ≠ "" := by
  intro h
  have := congrArg String.length h
  simp only [String.length_append] at this
  have e : " / ".length = 3 := by decide
  have z : "".length = 0 := by decide
  rw [e, z] at this
  omega

theorem unknown_ne_empty (b : String) : "Unknown / " ++ b ≠ "" := by
  intro h
  have := congrArg String.length h
  simp only [String.length_append] at this
  have e : "Unknown / ".length = 10 := by decide
  have z : "".length = 0 := by decide
  rw [e, z] at this
  omega

theorem fallbackTitle_ne_empty (i : Indexer) (photoTitle : String) (tags : List Tag)
    (country : Option Country) (year : String) :
    fallbackTitle i photoTitle tags country year ≠ "" := by
  unfold fallbackTitle
  split
  · split
    · exact append_sep_ne_empty _ _
    · split
      · split
        · exact append_sep_ne_empty _ _
        · exact unknown_ne_empty _
      · exact unknown_ne_empty _
  · assumption

theorem fallbackTitle_keep (i : Indexer) (photoTitle : String) (tags : List Tag)
    (country : Option Country) (year : String) (h : photoTitle ≠ "") :
    fallbackTitle i photoTitle tags country year = photoTitle := by
  unfold fallbackTitle
  rw [if_neg h]

theorem newPhoto_title (i : Indexer) (now : Int) (db : DB) (mediaFile : MediaFile) :
    (newPhoto i now db mediaFile).2.PhotoTitle =
      fallbackTitle i (draftLocation i (draftJpeg i db mediaFile) mediaFile).photo.PhotoTitle
        (draftLocation i (draftJpeg i db mediaFile) mediaFile).tags
        (draftLocation i (draftJpeg i db mediaFile) mediaFile).country
        mediaFile.dateCreated.format2006 := rfl

theorem draftLocation_title (i : Indexer) (db : DB) (mediaFile : MediaFile)
    (location : Location) (h : mediaFile.location = some location) :
    (draftLocation i (draftJpeg i db mediaFile) mediaFile).photo.PhotoTitle =
      locationTitle i "" (db.storedLocation location) mediaFile.dateCreated.format2006 := by
  have s := draftJpeg_spec i db mediaFile
  unfold draftLocation
  rw [h]
  dsimp only
  rw [s.1, firstOrCreateLocation_stored]
  unfold DB.storedLocation
  rw [s.2.2.2.2]

theorem indexMediaFile_created (i : Indexer) (now : Int) (db : DB) (mediaFile : MediaFile)
    (h : db.firstPhoto mediaFile.canonicalName = none) :
    (indexMediaFile i now db mediaFile).1.photos =
      db.photos ++ [(newPhoto i now db mediaFile).2] := by
  rw [indexMediaFile_photos, indexPhoto_new i now db mediaFile h]
  exact (newPhoto_spec i now db mediaFile).1

theorem utf8Size_ascii (c : Char) (h : c.toNat ≤ 0x7F) : c.utf8Size = 1 := by
  unfold Char.utf8Size
  have : c.val ≤ UInt32.ofNatCore 127 (by decide) := by
    show c.val.toNat ≤ 127
    exact h
  rw [if_pos this]

theorem utf8ByteSize_go_ascii (l : List Char) (h : ∀ c ∈ l, c.toNat ≤ 0x7F) :
    String.utf8ByteSize.go l = l.length := by
  induction l with
  | nil => rfl
  | cons c l ih =>
    rw [String.utf8ByteSize.go, ih (fun c' hc' => h c' (List.mem_cons_of_mem _ hc')),
      utf8Size_ascii c (h c (List.mem_cons_self _ _)), List.length_cons]

theorem len_ascii (s : String) (h : ∀ c ∈ s.data, c.toNat ≤ 0x7F) : len s = s.length := by
  cases s with
  | mk l => exact utf8ByteSize_go_ascii l h

/-- C9 as stated fails: the location name of `tokyoFile` has 16 characters, which is not
more than 40, and the title of the new Photo is `<Name> / <Year>`, not
`<Name> / <City> / <Year>`: the name is 48 bytes long and line 113 compares `len`. -/
theorem indexMediaFile_title_counts_bytes :
    DB.empty.firstPhoto tokyoFile.canonicalName = none ∧
    "東京都千代田区丸の内一丁目東京駅".length = 16 ∧
    len "東京都千代田区丸の内一丁目東京駅" = 48 ∧
    (indexMediaFile sampleIndexer 0 DB.empty tokyoFile).1.photos.map (·.PhotoTitle) =
      ["東京都千代田区丸の内一丁目東京駅 / 2023"] ∧
    (indexMediaFile sampleIndexer 0 DB.empty tokyoFile).1.photos.map (·.PhotoTitle) ≠
      ["東京都千代田区丸の内一丁目東京駅 / 東京 / 2023"] := by
  decide

/-- C9, amended: for a media file whose canonical name has no Photo yet and whose location
resolves, the Photo that `indexMediaFile` creates has the title `<Name> / <Year>` when the
name of the Location record is longer than 40 bytes in UTF-8 (more than 40 characters when
the name is ASCII) and `<Name> / <City> / <Year>` when the name is not empty and at most 40
bytes long, with the name in title case and the year as `Format("2006")` prints it; with an
empty name it is `<City> / <Country> / <Year>` when the city is not empty and else
`<County> / <Country> / <Year>` when the county is not empty. The Location record is the one
the catalog holds for the id after find-or-create: the resolved location itself when the
catalog had no row of that id. -/
theorem indexMediaFile_locationTitle (i : Indexer) (now : Int) (db : DB)
    (mediaFile : MediaFile) (location : Location)
    (hnew : db.firstPhoto mediaFile.canonicalName = none)
    (hloc : mediaFile.location = some location) :
    ∃ p : Photo,
      (indexMediaFile i now db mediaFile).1.photos = db.photos ++ [p] ∧
      p.PhotoCanonicalName = mediaFile.canonicalName ∧
      ((db.storedLocation location).LocName ≠ "" →
        40 < len (db.storedLocation location).LocName →
        p.PhotoTitle = title i.unicode (db.storedLocation location).LocName ++ " / " ++
          mediaFile.dateCreated.format2006) ∧
      ((db.storedLocation location).LocName ≠ "" →
        len (db.storedLocation location).LocName ≤ 40 →
        p.PhotoTitle = title i.unicode (db.storedLocation location).LocName ++ " / " ++
          (db.storedLocation location).LocCity ++ " / " ++
          mediaFile.dateCreated.format2006) ∧
      ((db.storedLocation location).LocName = "" →
        (db.storedLocation location).LocCity ≠ "" →
        p.PhotoTitle = (db.storedLocation location).LocCity ++ " / " ++
          (db.storedLocation location).LocCountry ++ " / " ++
          mediaFile.dateCreated.format2006) ∧
      ((db.storedLocation location).LocName = "" →
        (db.storedLocation location).LocCity = "" →
        (db.storedLocation location).LocCounty ≠ "" →
        p.PhotoTitle = (db.storedLocation location).LocCounty ++ " / " ++
          (db.storedLocation location).LocCountry ++ " / " ++
          mediaFile.dateCreated.format2006) ∧
      ((∀ c ∈ (db.storedLocation location).LocName.data, c.toNat ≤ 0x7F) →
        len (db.storedLocation location).LocName =
          (db.storedLocation location).LocName.length) ∧
      ((∀ l ∈ db.locations, l.ID ≠ location.ID) → db.storedLocation location = location) := by
  have ht : (newPhoto i now db mediaFile).2.PhotoTitle =
      fallbackTitle i (locationTitle i "" (db.storedLocation location)
        mediaFile.dateCreated.format2006)
        (draftLocation i (draftJpeg i db mediaFile) mediaFile).tags
        (draftLocation i (draftJpeg i db mediaFile) mediaFile).country
        mediaFile.dateCreated.format2006 := by
    rw [newPhoto_title, draftLocation_title i db mediaFile location hloc]
  refine ⟨(newPhoto i now db mediaFile).2, indexMediaFile_created i now db mediaFile hnew,
    (newPhoto_spec i now db mediaFile).2.2.2.2.2.2, ?_, ?_, ?_, ?_, len_ascii _, ?_⟩
  · intro h1 h2
    rw [ht]
    unfold locationTitle
    rw [if_pos ⟨rfl, h1⟩, if_pos h2, fallbackTitle_keep _ _ _ _ _ (append_sep_ne_empty _ _)]
  · intro h1 h2
    rw [ht]
    unfold locationTitle
    rw [if_pos ⟨rfl, h1⟩, if_neg (Nat.not_lt.2 h2),
      fallbackTitle_keep _ _ _ _ _ (append_sep_ne_empty _ _)]
  · intro h1 h2
    rw [ht]
    unfold locationTitle
    rw [if_neg (fun c => c.2 h1), if_pos ⟨rfl, h2⟩,
      fallbackTitle_keep _ _ _ _ _ (append_sep_ne_empty _ _)]
  · intro h1 h2 h3
    rw [ht]
    unfold locationTitle
    rw [if_neg (fun c => c.2 h1), if_neg (fun c => c.2 h2), if_pos ⟨rfl, h3⟩,
      fallbackTitle_keep _ _ _ _ _ (append_sep_ne_empty _ _)]
  · intro h
    unfold DB.storedLocation
    have : db.locations.find? (fun l => decide (l.ID = location.ID)) = none := by
      rw [List.find?_eq_none]
      intro l hl
      simpa using h l hl
    rw [this]

/-- Witness of C9: the location name `Eiffel Tower Gardens and Promenade Extended Name`
and the capture year 2019 give the title
`Eiffel Tower Gardens And Promenade Extended Name / 2019`. -/
theorem indexMediaFile_locationTitle_witness :
    sampleDB.firstPhoto eiffelFile.canonicalName = none ∧
    ∃ p : Photo,
      (indexMediaFile sampleIndexer (minutes 1) sampleDB eiffelFile).1.photos =
        sampleDB.photos ++ [p] ∧
      p.PhotoTitle = "Eiffel Tower Gardens And Promenade Extended Name / 2019" :=
  ⟨by decide,
   (indexMediaFile_locationTitle sampleIndexer (minutes 1) sampleDB eiffelFile
      ⟨8, "Eiffel Tower Gardens and Promenade Extended Name", "Paris", "", "France", "fr",
        "", ""⟩ (by decide) rfl).elim
    (fun p h => ⟨p, h.1, (h.2.2.1 (by decide) (by decide)).trans (by decide)⟩)⟩

theorem recentPhoto_congr (a b : DB) (h : a.sameButTags b) (t : Time) :
    b.recentPhoto t = a.recentPhoto t := by
  unfold DB.recentPhoto
  rw [h.1, h.2.1]

theorem draftLocation_country (i : Indexer) (db : DB) (mediaFile : MediaFile) :
    (mediaFile.location = none →
      (draftLocation i (draftJpeg i db mediaFile) mediaFile).country =
        db.inheritedCountry mediaFile.dateCreated) ∧
    (∀ location, mediaFile.location = some location →
      (draftLocation i (draftJpeg i db mediaFile) mediaFile).country =
        some (db.storedCountry (db.storedLocation location))) := by
  have s := draftJpeg_spec i db mediaFile
  refine ⟨?_, ?_⟩
  · intro h
    unfold draftLocation DB.inheritedCountry
    rw [h]
    dsimp only
    rw [recentPhoto_congr db _ s.2.2]
    split
    · rfl
    · rw [s.2.1]
  · intro location h
    unfold draftLocation
    rw [h]
    dsimp only
    rw [firstOrCreateLocation_stored]
    have e1 : (draftJpeg i db mediaFile).db.storedLocation location =
        db.storedLocation location := by
      unfold DB.storedLocation
      rw [s.2.2.2.2]
    have e2 : ((draftJpeg i db mediaFile).db.firstOrCreateLocation location).1.countries =
        db.countries := by
      unfold DB.firstOrCreateLocation
      split
      · exact s.2.2.2.1
      · exact s.2.2.2.1
    rw [e1]
    unfold DB.firstOrCreateCountry DB.storedCountry
    rw [e2]
    split <;> rfl

/-- C10 as stated fails: the location of `bareFile` resolves, to the country code `fr`
and nothing else, so no Country is inherited (and the Photo nearest in date has none); no
title and no tag results from the location step. The Country of the Photo is the catalog's
record for `fr`, and the title is `France / 2023`, not `Unknown / 2023`. -/
theorem indexMediaFile_title_resolved_country :
    franceDB.firstPhoto bareFile.canonicalName = none ∧
    bareFile.location = some ⟨9, "", "", "", "", "fr", "", ""⟩ ∧
    franceDB.inheritedCountry bareFile.dateCreated = none ∧
    (draftLocation sampleIndexer (draftJpeg sampleIndexer franceDB bareFile)
      bareFile).photo.PhotoTitle = "" ∧
    (draftLocation sampleIndexer (draftJpeg sampleIndexer franceDB bareFile)
      bareFile).tags = [] ∧
    (indexMediaFile sampleIndexer (minutes 2) franceDB bareFile).1.photos.map (·.PhotoTitle) =
      franceDB.photos.map (·.PhotoTitle) ++ ["France / 2023"] ∧
    (indexMediaFile sampleIndexer (minutes 2) franceDB bareFile).1.photos.map (·.PhotoTitle) ≠
      franceDB.photos.map (·.PhotoTitle) ++ ["Unknown / 2023"] := by
  decide

/-- C10, amended: for a media file whose canonical name has no Photo yet, the Photo that
`indexMediaFile` creates never has an empty title; when the title is still empty after the
location step it is `<Tag> / <Year>`, from the first tag in title case, when there is a
tag; else `<Country name> / <Year>`, the name in title case, when the Photo has a Country
with a non-empty name; else `Unknown / <Year>`. The Country is the one inherited from the
Photo nearest in date when the location does not resolve, and the catalog's Country of the
location's country code when it does. -/
theorem indexMediaFile_fallbackTitle (i : Indexer) (now : Int) (db : DB)
    (mediaFile : MediaFile) (hnew : db.firstPhoto mediaFile.canonicalName = none) :
    ∃ p : Photo,
      (indexMediaFile i now db mediaFile).1.photos = db.photos ++ [p] ∧
      p.PhotoTitle ≠ "" ∧
      ((draftLocation i (draftJpeg i db mediaFile) mediaFile).photo.PhotoTitle = "" →
        (∀ tag rest, (draftLocation i (draftJpeg i db mediaFile) mediaFile).tags = tag :: rest →
          p.PhotoTitle = title i.unicode tag.TagLabel ++ " / " ++
            mediaFile.dateCreated.format2006) ∧
        ((draftLocation i (draftJpeg i db mediaFile) mediaFile).tags = [] →
          (∀ c, (draftLocation i (draftJpeg i db mediaFile) mediaFile).country = some c →
            c.CountryName ≠ "" →
            p.PhotoTitle = title i.unicode c.CountryName ++ " / " ++
              mediaFile.dateCreated.format2006) ∧
          (∀ c, (draftLocation i (draftJpeg i db mediaFile) mediaFile).country = some c →
            c.CountryName = "" →
            p.PhotoTitle = "Unknown / " ++ mediaFile.dateCreated.format2006) ∧
          ((draftLocation i (draftJpeg i db mediaFile) mediaFile).country = none →
            p.PhotoTitle = "Unknown / " ++ mediaFile.dateCreated.format2006))) ∧
      (mediaFile.location = none →
        (draftLocation i (draftJpeg i db mediaFile) mediaFile).country =
          db.inheritedCountry mediaFile.dateCreated) ∧
      (∀ location, mediaFile.location = some location →
        (draftLocation i (draftJpeg i db mediaFile) mediaFile).country =
          some (db.storedCountry (db.storedLocation location))) := by
  have hc := draftLocation_country i db mediaFile
  refine ⟨(newPhoto i now db mediaFile).2, indexMediaFile_created i now db mediaFile hnew,
    ?_, ?_, hc.1, hc.2⟩
  · rw [newPhoto_title]
    exact fallbackTitle_ne_empty _ _ _ _ _
  · intro ht
    rw [newPhoto_title, ht]
    refine ⟨?_, ?_⟩
    · intro tag rest h
      rw [h]
      rfl
    · intro h
      rw [h]
      refine ⟨?_, ?_, ?_⟩
      · intro c h1 h2
        rw [h1]
        simp [fallbackTitle, h2]
      · intro c h1 h2
        rw [h1]
        simp [fallbackTitle, h2]
      · intro h1
        rw [h1]
        rfl

/-- Witness of C10: no location, no tags, the Photo nearest in date has the Country
`Japan`, capture year 2023: the title is `Japan / 2023`. -/
theorem indexMediaFile_fallbackTitle_witness :
    japanDB.firstPhoto (sampleFile "b.jpg" "b" "h2" "jpg").canonicalName = none ∧
    japanDB.inheritedCountry (sampleFile "b.jpg" "b" "h2" "jpg").dateCreated =
      some ⟨"jp", "Japan"⟩ ∧
    ∃ p : Photo,
      (indexMediaFile sampleIndexer (minutes 2) japanDB
        (sampleFile "b.jpg" "b" "h2" "jpg")).1.photos = japanDB.photos ++ [p] ∧
      p.PhotoTitle = "Japan / 2023" :=
  ⟨by decide, by decide,
   (indexMediaFile_fallbackTitle sampleIndexer (minutes 2) japanDB
      (sampleFile "b.jpg" "b" "h2" "jpg") (by decide)).elim
    (fun p h => ⟨p, h.1,
      (((h.2.2.1 (by decide)).2 (by decide)).1 ⟨"jp", "Japan"⟩ (by decide) (by decide)).trans
        (by decide)⟩)⟩

/-! ### Primary files -/

theorem countP_le_one_eq {α : Type} (q : α → Bool) (l : List α) (h : l.countP q ≤ 1)
    {a b : α} (ha : a ∈ l) (hb : b ∈ l) (qa : q a = true) (qb : q b = true) : a = b := by
  induction l with
  | nil => cases ha
  | cons c l ih =>
    rw [List.countP_cons] at h
    rcases List.mem_cons.1 ha with ha1 | ha1 <;> rcases List.mem_cons.1 hb with hb1 | hb1
    · rw [ha1, hb1]
    · subst ha1
      have : 0 < l.countP q := List.countP_pos_iff.2 ⟨b, hb1, qb⟩
      rw [if_pos qa] at h
      omega
    · subst hb1
      have : 0 < l.countP q := List.countP_pos_iff.2 ⟨a, ha1, qa⟩
      rw [if_pos qb] at h
      omega
    · exact ih (Nat.le_trans (Nat.le_add_right _ _) h) ha1 hb1

theorem countP_ID_le_one {db : DB} (h : db.WF) (x : Nat) :
    db.files.countP (fun g => decide (g.ID = x)) ≤ 1 := by
  have hn : (db.files.map (·.ID)).Nodup := keysOk_nodup h.2
  have := List.nodup_iff_count_le_one.1 hn x
  rw [List.count, List.countP_map] at this
  refine Nat.le_trans (Nat.le_of_eq ?_) this
  apply List.countP_congr
  intro g _
  simp

/-- Where the lookup by hash or path finds at most one row, `indexMediaFile` keeps the
invariant that a Photo owns at most one primary File of image type. -/
theorem indexMediaFile_onePrimary_of_unique (i : Indexer) (now : Int) (db : DB)
    (mediaFile : MediaFile) (h : db.WF) (hone : ∀ k, db.primaryCount k ≤ 1)
    (hf : db.fileCount mediaFile.hash mediaFile.relativeFilename ≤ 1) :
    ∀ k, (indexMediaFile i now db mediaFile).1.primaryCount k ≤ 1 := by
  intro k
  have hfiles := (indexPhoto_files i now db mediaFile).1
  have hwf := indexPhoto_WF i now db mediaFile h
  obtain ⟨f, h1, h2, _, _, h5, _, _, hid, _, h10⟩ :=
    indexFile_files now (indexPhoto i now db mediaFile).1 (indexPhoto i now db mediaFile).2
      mediaFile
  have hq : (indexPhoto i now db mediaFile).1.firstFile mediaFile.hash
      mediaFile.relativeFilename = db.firstFile mediaFile.hash mediaFile.relativeFilename := by
    simp only [DB.firstFile, hfiles]
  have hp : (indexPhoto i now db mediaFile).1.firstPrimaryFile
      (indexPhoto i now db mediaFile).2.ID =
      db.firstPrimaryFile (indexPhoto i now db mediaFile).2.ID := by
    simp only [DB.firstPrimaryFile, hfiles]
  have hiff := electPrimary_iff (indexPhoto i now db mediaFile).1
    (indexPhoto i now db mediaFile).2 mediaFile
  rw [hp, ← h1] at hiff
  rw [hq, hfiles] at h10
  rw [hq] at hid
  show (indexFile now (indexPhoto i now db mediaFile).1 (indexPhoto i now db mediaFile).2
    mediaFile).1.files.countP _ ≤ 1
  rw [h10]
  by_cases hP : f.FileType = "jpg" ∧ f.FilePrimary = true ∧ f.PhotoID = k
  · have hk : k = (indexPhoto i now db mediaFile).2.ID := by rw [← hP.2.2, h2]
    have hel := (hiff.1 hP.2.1).2
    cases hfq : db.firstFile mediaFile.hash mediaFile.relativeFilename with
    | none =>
      simp only []
      rw [List.countP_append]
      rcases hel with hnone | ⟨p, hp1, hp2⟩
      · have z : db.files.countP (fun f => decide (f.FileType = "jpg" ∧ f.FilePrimary = true ∧
            f.PhotoID = k)) = 0 := by
          rw [hk]
          exact countP_eq_zero_of_find _ _ hnone
        rw [z]
        simp [hP]
      · have hpm : p ∈ db.files := List.mem_of_find?_eq_some hp1
        have := List.find?_eq_none.1 hfq p hpm
        simp at this
        rcases hp2 with e | e
        · exact absurd e.symm this.2
        · exact absurd e.symm this.1
    | some old =>
      rw [hfq] at hid
      have hom := firstFile_mem hfq
      simp only []
      rw [List.countP_map]
      rcases hel with hnone | ⟨p, hp1, hp2⟩
      · refine Nat.le_trans (List.countP_mono_left ?_) (countP_ID_le_one h old.ID)
        intro g hg hg2
        by_cases e : g.ID = old.ID
        · simpa using e
        · have hz := List.find?_eq_none.1 hnone g hg
          rw [← hk] at hz
          simp only [Function.comp, if_neg e] at hg2
          exact absurd hg2 hz
      · have hpm : p ∈ db.files := List.mem_of_find?_eq_some hp1
        have hpP := List.find?_some hp1
        rw [← hk] at hpP
        have hpq : decide (p.FileHash = mediaFile.hash ∨ p.FileName = mediaFile.relativeFilename)
            = true := by
          rcases hp2 with e | e
          · simp [e]
          · simp [e]
        have hoq : decide (old.FileHash = mediaFile.hash ∨
            old.FileName = mediaFile.relativeFilename) = true := by simpa using hom.2
        have hpo : p = old := countP_le_one_eq _ _ hf hpm hom.1 hpq hoq
        refine Nat.le_trans (List.countP_mono_left ?_) (hone k)
        intro g hg hg2
        by_cases e : g.ID = old.ID
        · rw [file_eq_of_ID h hg hom.1 e, ← hpo]
          exact hpP
        · simpa only [Function.comp, if_neg e] using hg2
  · cases hfq : db.firstFile mediaFile.hash mediaFile.relativeFilename with
    | none =>
      simp only []
      rw [List.countP_append]
      have : [f].countP (fun f => decide (f.FileType = "jpg" ∧ f.FilePrimary = true ∧
          f.PhotoID = k)) = 0 := by
        simp [hP]
      rw [this]
      exact hone k
    | some old =>
      simp only []
      rw [List.countP_map]
      refine Nat.le_trans (List.countP_mono_left ?_) (hone k)
      intro g _ hg2
      by_cases e : g.ID = old.ID
      · simp only [Function.comp, if_pos e] at hg2
        exact absurd (by simpa using hg2) hP
      · simpa only [Function.comp, if_neg e] using hg2

/-- C5 breaks on the code: in `twoPhotosDB` every Photo owns one primary JPEG; `b.jpg`,
overwritten with a copy of `a.jpg`, is elected primary because its hash is the hash of the
primary File `a.jpg` of its Photo, and the lookup by hash or path finds the row of `b.jpg`
first, so the Photo ends up with two primary JPEG rows. -/
theorem indexMediaFile_second_primary :
    twoPhotosDB.WF ∧ twoPhotosDB.uniqueNames ∧
    (∀ f ∈ twoPhotosDB.files, twoPhotosDB.primaryCount f.PhotoID ≤ 1) ∧
    twoPhotosDB.primaryCount 2 = 1 ∧
    twoPhotosDB.fileCount overwrittenFile.hash overwrittenFile.relativeFilename = 2 ∧
    (indexMediaFile sampleIndexer (minutes 2) twoPhotosDB overwrittenFile).1.primaryCount 2
      = 2 ∧
    (indexMediaFile sampleIndexer (minutes 2) twoPhotosDB overwrittenFile).1.files.map
      (fun f => (f.ID, f.PhotoID, f.FileName, f.FileHash, f.FileType, f.FilePrimary)) =
      [(1, 2, "b.jpg", "h1", "jpg", true), (2, 2, "a.jpg", "h1", "jpg", true)] := by
  decide

end Photoprism
